import Mathlib

/-!
Verification of the polyinfo acquisition pipeline (`src/get_polymer_smiles.py`)
and the level-1 payload loaders (`load_poly.py`, `src/load_poly.py`).

The Python sources are shallowly embedded below.  External library behaviour
(Python's `json`, `base64` and UTF-8 codecs) is modelled executably:
JSON values are an inductive type (objects are association lists, numbers are
integers; floats are outside the model), `json.dumps` is a printer
(the default compact separators and the `indent=2` variant used by
`atomic_write_json`), `json.loads` is a fuel-indexed recursive-descent parser,
and base64/UTF-8 are byte-level encoders/decoders.  The file system of the
output directory is an association list from file names to file contents; the
fetch driver of `main` is a step function over an explicit state, with the
operator console, the network response and the captured token supplied as a
per-iteration environment.
-/

namespace PolyInfo

/-! ### Character helpers (ASCII-level models of Python predicates) -/

/-- Whitespace recognised by the JSON scanner (space, tab, newline, carriage
return), matching Python's `json` whitespace set. -/
def isWs (c : Char) : Bool :=
  c.toNat = 32 || c.toNat = 9 || c.toNat = 10 || c.toNat = 13

/-- ASCII decimal digit test (Python's `[0-9]`). -/
def isDig (c : Char) : Bool :=
  48 ≤ c.toNat && c.toNat ≤ 57

/-- Whitespace stripped by Python's `str.strip()` (ASCII fragment: space, tab,
newline, carriage return, vertical tab, form feed). -/
def isPySpace (c : Char) : Bool :=
  c.toNat = 32 || c.toNat = 9 || c.toNat = 10 || c.toNat = 13 ||
    c.toNat = 11 || c.toNat = 12

/-- ASCII lower-casing of one character, the fragment of `str.lower()`
exercised by content-type strings. -/
def lowerChar (c : Char) : Char :=
  if 65 ≤ c.toNat ∧ c.toNat ≤ 90 then Char.ofNat (c.toNat + 32) else c

/-- ASCII lower-casing of a string (model of `str.lower()`). -/
def lowerStr (s : String) : String :=
  String.mk (s.data.map lowerChar)

/-- Does the list start with the given needle?  (model of the initial-segment
test underlying Python's `in` on strings). -/
def leadsWith : List Char → List Char → Bool
  | [], _ => true
  | _ :: _, [] => false
  | a :: as, b :: bs => a = b && leadsWith as bs

/-- Substring test: model of Python's `needle in hay` for strings. -/
def listContainsSub : List Char → List Char → Bool
  | needle, [] => leadsWith needle []
  | needle, c :: t => leadsWith needle (c :: t) || listContainsSub needle t

/-- `str.strip()`: drop `isPySpace` characters from both ends. -/
def pyStrip (l : List Char) : List Char :=
  ((l.dropWhile isPySpace).reverse.dropWhile isPySpace).reverse

/-- The opening curly bracket character. -/
def lbrace : Char := Char.ofNat 123

/-- The closing curly bracket character. -/
def rbrace : Char := Char.ofNat 125

/-! ### JSON values

Model of the JSON data handled by Python's `json` module: objects are
association lists in insertion order, numbers are restricted to integers
(no value in the pipeline is claimed about floats). -/

mutual

inductive Json : Type where
  | null : Json
  | bool : Bool → Json
  | num : Int → Json
  | str : String → Json
  | arr : JArr → Json
  | obj : JObj → Json

inductive JArr : Type where
  | nil : JArr
  | cons : Json → JArr → JArr

inductive JObj : Type where
  | nil : JObj
  | cons : String → Json → JObj → JObj

end

/-- `dict.get(key)`: Python dict lookup.  On duplicate keys `json.loads`
keeps the last occurrence, so lookup prefers the rightmost binding. -/
def jGet : JObj → String → Option Json
  | JObj.nil, _ => none
  | JObj.cons k v t, key =>
    match jGet t key with
    | some r => some r
    | none => if k = key then some v else none

/-- `dict.get(key, default)`. -/
def jGetD (o : JObj) (key : String) (dflt : Json) : Json :=
  match jGet o key with
  | some v => v
  | none => dflt

/-- Python truthiness of a decoded JSON value
(`None`, `False`, `0`, `""`, `[]` and the empty dict are falsy). -/
def jsonTruthy : Json → Bool
  | Json.null => false
  | Json.bool b => b
  | Json.num n => !(n = 0)
  | Json.str s => !(s = "")
  | Json.arr JArr.nil => false
  | Json.arr (JArr.cons _ _) => true
  | Json.obj JObj.nil => false
  | Json.obj (JObj.cons _ _ _) => true

mutual

/-- Structural size of a JSON value, used as parser fuel bound. -/
def sizeJ : Json → Nat
  | Json.null => 1
  | Json.bool _ => 1
  | Json.num _ => 1
  | Json.str _ => 1
  | Json.arr a => 1 + sizeA a
  | Json.obj o => 1 + sizeO o

/-- Structural size of an array tail. -/
def sizeA : JArr → Nat
  | JArr.nil => 1
  | JArr.cons h t => 1 + sizeJ h + sizeA t

/-- Structural size of an object tail. -/
def sizeO : JObj → Nat
  | JObj.nil => 1
  | JObj.cons _ v t => 1 + sizeJ v + sizeO t

end

/-! ### Number printing (`repr` of Python ints inside `json.dumps`) -/

/-- The ASCII digit character for a value below ten. -/
def digitChar (d : Nat) : Char := Char.ofNat (48 + d)

/-- Decimal digits of a natural number, most significant first. -/
def natDigits (n : Nat) : List Char :=
  if _h : n < 10 then [digitChar n]
  else natDigits (n / 10) ++ [digitChar (n % 10)]
  decreasing_by exact Nat.div_lt_self (by omega) (by omega)

/-- Decimal rendering of an integer. -/
def intChars (n : Int) : List Char :=
  if n < 0 then '-' :: natDigits n.natAbs else natDigits n.toNat

/-- Hexadecimal digit character (lowercase), as emitted by `json.dumps`
for control characters. -/
def hexDigitChar (v : Nat) : Char :=
  if v < 10 then Char.ofNat (48 + v) else Char.ofNat (87 + v)

/-- Escaping of one character inside a JSON string, following `json.dumps`
with `ensure_ascii=False`: quote, backslash and named control escapes, other
control characters as a hexadecimal escape, everything else verbatim. -/
def escChar (c : Char) : List Char :=
  if c = '"' then ['\\', '"']
  else if c = '\\' then ['\\', '\\']
  else if c = '\n' then ['\\', 'n']
  else if c = '\t' then ['\\', 't']
  else if c = '\r' then ['\\', 'r']
  else if c.toNat = 8 then ['\\', 'b']
  else if c.toNat = 12 then ['\\', 'f']
  else if c.toNat < 32 then
    ['\\', 'u', '0', '0', hexDigitChar (c.toNat / 16), hexDigitChar (c.toNat % 16)]
  else [c]

/-- Rendering of a JSON string literal including the surrounding quotes. -/
def printStr (s : String) : List Char :=
  '"' :: s.data.flatMap escChar ++ ['"']

/-! ### JSON printing

`PrintStyle` captures the whitespace layout of `json.dumps`: the compact
default separators and the `indent=2` layout differ only in the whitespace
emitted after an opening bracket, after an item comma and before a closing
bracket (all depth-indexed). -/

structure PrintStyle : Type where
  afterOpen : Nat → List Char
  afterComma : Nat → List Char
  beforeClose : Nat → List Char

/-- Layout of `json.dumps(obj)` with the default separators. -/
def compactStyle : PrintStyle where
  afterOpen _ := []
  afterComma _ := [' ']
  beforeClose _ := []

/-- Layout of `json.dumps(obj, indent=2)`: a newline plus indentation after
opening brackets and commas, and a newline plus the parent indentation before
closing brackets. -/
def indentStyle : PrintStyle where
  afterOpen d := '\n' :: List.replicate (d + 2) ' '
  afterComma d := '\n' :: List.replicate (d + 2) ' '
  beforeClose d := '\n' :: List.replicate d ' '

mutual

/-- Print a JSON value at indentation depth `d` in layout `st`. -/
def printJ (st : PrintStyle) (d : Nat) : Json → List Char
  | Json.null => ['n', 'u', 'l', 'l']
  | Json.bool true => ['t', 'r', 'u', 'e']
  | Json.bool false => ['f', 'a', 'l', 's', 'e']
  | Json.num n => intChars n
  | Json.str s => printStr s
  | Json.arr JArr.nil => ['[', ']']
  | Json.arr (JArr.cons h t) =>
    '[' :: st.afterOpen d ++ printJ st (d + 2) h ++ printArrT st d t ++
      st.beforeClose d ++ [']']
  | Json.obj JObj.nil => [lbrace, rbrace]
  | Json.obj (JObj.cons k v t) =>
    lbrace :: st.afterOpen d ++ printStr k ++ [':', ' '] ++ printJ st (d + 2) v ++
      printObjT st d t ++ st.beforeClose d ++ [rbrace]

/-- Print the remaining elements of an array (each preceded by a comma). -/
def printArrT (st : PrintStyle) (d : Nat) : JArr → List Char
  | JArr.nil => []
  | JArr.cons h t =>
    ',' :: st.afterComma d ++ printJ st (d + 2) h ++ printArrT st d t

/-- Print the remaining members of an object (each preceded by a comma). -/
def printObjT (st : PrintStyle) (d : Nat) : JObj → List Char
  | JObj.nil => []
  | JObj.cons k v t =>
    ',' :: st.afterComma d ++ printStr k ++ [':', ' '] ++ printJ st (d + 2) v ++
      printObjT st d t

end

/-- `json.dumps(obj)` with default separators, as used by `append_index`. -/
def dumps (j : Json) : String :=
  String.mk (printJ compactStyle 0 j)

/-- `json.dumps(obj, ensure_ascii=False, indent=2)`, as used by
`atomic_write_json`. -/
def dumpsIndent2 (j : Json) : String :=
  String.mk (printJ indentStyle 0 j)

/-! ### JSON parsing (model of `json.loads`)

A fuel-indexed recursive-descent parser over the character list.  The fuel
only bounds the nesting recursion; string bodies and digit runs are consumed
by structurally recursive scanners.  Numbers are restricted to integers, the
fragment the model covers. -/

/-- Drop leading JSON whitespace. -/
def skipWs : List Char → List Char
  | [] => []
  | c :: t => if isWs c then skipWs t else c :: t

/-- Consume a maximal run of decimal digits, accumulating their value. -/
def munchDigits : List Char → Nat → Nat × List Char
  | [], acc => (acc, [])
  | c :: t, acc =>
    if isDig c then munchDigits t (acc * 10 + (c.toNat - 48)) else (acc, c :: t)

/-- Does the input continue with a digit?  Used to reject leading zeros, as
the `json.loads` number grammar is `0` or a nonzero digit followed by more
digits. -/
def headDig : List Char → Bool
  | d :: _ => isDig d
  | [] => false

/-- Value of one hexadecimal digit character, if any. -/
def hexVal : Char → Option Nat :=
  fun c =>
    if 48 ≤ c.toNat ∧ c.toNat ≤ 57 then some (c.toNat - 48)
    else if 97 ≤ c.toNat ∧ c.toNat ≤ 102 then some (c.toNat - 87)
    else if 65 ≤ c.toNat ∧ c.toNat ≤ 70 then some (c.toNat - 55)
    else none

/-- Parse the body of a JSON string literal after the opening quote, up to and
including the closing quote, unescaping as `json.loads` does.  Raw control
characters are rejected (Python's `strict=True`). -/
def parseStrBody : List Char → Except String (List Char × List Char)
  | [] => Except.error ("unterminated string")
  | '"' :: t => Except.ok ([], t)
  | '\\' :: e :: t =>
    if e = '"' then do
      let (cs, r) ← parseStrBody t
      Except.ok ('"' :: cs, r)
    else if e = '\\' then do
      let (cs, r) ← parseStrBody t
      Except.ok ('\\' :: cs, r)
    else if e = '/' then do
      let (cs, r) ← parseStrBody t
      Except.ok ('/' :: cs, r)
    else if e = 'n' then do
      let (cs, r) ← parseStrBody t
      Except.ok ('\n' :: cs, r)
    else if e = 't' then do
      let (cs, r) ← parseStrBody t
      Except.ok ('\t' :: cs, r)
    else if e = 'r' then do
      let (cs, r) ← parseStrBody t
      Except.ok ('\r' :: cs, r)
    else if e = 'b' then do
      let (cs, r) ← parseStrBody t
      Except.ok (Char.ofNat 8 :: cs, r)
    else if e = 'f' then do
      let (cs, r) ← parseStrBody t
      Except.ok (Char.ofNat 12 :: cs, r)
    else if e = 'u' then
      match t with
      | h1 :: h2 :: h3 :: h4 :: t4 =>
        match hexVal h1, hexVal h2, hexVal h3, hexVal h4 with
        | some v1, some v2, some v3, some v4 =>
          let n := v1 * 4096 + v2 * 256 + v3 * 16 + v4
          if 55296 ≤ n ∧ n < 57344 then Except.error ("lone surrogate")
          else do
            let (cs, r) ← parseStrBody t4
            Except.ok (Char.ofNat n :: cs, r)
        | _, _, _, _ => Except.error ("invalid hex escape")
      | _ => Except.error ("truncated hex escape")
    else Except.error ("invalid escape")
  | '\\' :: [] => Except.error ("truncated escape")
  | c :: t =>
    if c.toNat < 32 then Except.error ("control character in string")
    else do
      let (cs, r) ← parseStrBody t
      Except.ok (c :: cs, r)

mutual

/-- Parse one JSON value.  Fuel bounds the bracket-nesting recursion. -/
def parseJ : Nat → List Char → Except String (Json × List Char)
  | 0, _ => Except.error ("too deeply nested")
  | fuel + 1, s0 =>
    match skipWs s0 with
    | [] => Except.error ("unexpected end of input")
    | c :: r =>
      if c = lbrace then parseObjStart fuel r
      else if c = '[' then parseArrStart fuel r
      else if c = '"' then do
        let (cs, r1) ← parseStrBody r
        Except.ok (Json.str (String.mk cs), r1)
      else if c = 't' then
        match r with
        | 'r' :: 'u' :: 'e' :: r1 => Except.ok (Json.bool true, r1)
        | _ => Except.error ("invalid literal")
      else if c = 'f' then
        match r with
        | 'a' :: 'l' :: 's' :: 'e' :: r1 => Except.ok (Json.bool false, r1)
        | _ => Except.error ("invalid literal")
      else if c = 'n' then
        match r with
        | 'u' :: 'l' :: 'l' :: r1 => Except.ok (Json.null, r1)
        | _ => Except.error ("invalid literal")
      else if c = '-' then
        match r with
        | c2 :: r2 =>
          if isDig c2 then
            if c2 = '0' && headDig r2 then Except.error ("invalid number")
            else
              let (n, r1) := munchDigits r 0
              Except.ok (Json.num (-(n : Int)), r1)
          else Except.error ("invalid number")
        | [] => Except.error ("invalid number")
      else if isDig c then
        if c = '0' && headDig r then Except.error ("invalid number")
        else
          let (n, r1) := munchDigits (c :: r) 0
          Except.ok (Json.num (n : Int), r1)
      else Except.error ("unexpected character")

/-- Parse an object after its opening bracket. -/
def parseObjStart : Nat → List Char → Except String (Json × List Char)
  | 0, _ => Except.error ("too deeply nested")
  | fuel + 1, s =>
    match skipWs s with
    | [] => Except.error ("unterminated object")
    | c :: r =>
      if c = rbrace then Except.ok (Json.obj JObj.nil, r)
      else if c = '"' then do
        let (k, r1) ← parseStrBody r
        match skipWs r1 with
        | c2 :: r2 =>
          if c2 = ':' then do
            let (v, r3) ← parseJ fuel r2
            let (t, r4) ← parseObjTail fuel r3
            Except.ok (Json.obj (JObj.cons (String.mk k) v t), r4)
          else Except.error ("expected colon")
        | [] => Except.error ("unterminated object")
      else Except.error ("expected key")

/-- Parse the continuation of an object after a member's value: either the
closing bracket or a comma followed by further members. -/
def parseObjTail : Nat → List Char → Except String (JObj × List Char)
  | 0, _ => Except.error ("too deeply nested")
  | fuel + 1, s =>
    match skipWs s with
    | [] => Except.error ("unterminated object")
    | c :: r =>
      if c = rbrace then Except.ok (JObj.nil, r)
      else if c = ',' then
        match skipWs r with
        | c2 :: r2 =>
          if c2 = '"' then do
            let (k, r3) ← parseStrBody r2
            match skipWs r3 with
            | c3 :: r4 =>
              if c3 = ':' then do
                let (v, r5) ← parseJ fuel r4
                let (t, r6) ← parseObjTail fuel r5
                Except.ok (JObj.cons (String.mk k) v t, r6)
              else Except.error ("expected colon")
            | [] => Except.error ("unterminated object")
          else Except.error ("expected key")
        | [] => Except.error ("unterminated object")
      else Except.error ("expected comma or closing bracket")

/-- Parse an array after its opening bracket. -/
def parseArrStart : Nat → List Char → Except String (Json × List Char)
  | 0, _ => Except.error ("too deeply nested")
  | fuel + 1, s =>
    match skipWs s with
    | [] => Except.error ("unterminated array")
    | c :: r =>
      if c = ']' then Except.ok (Json.arr JArr.nil, r)
      else do
        let (h, r1) ← parseJ fuel (c :: r)
        let (t, r2) ← parseArrTail fuel r1
        Except.ok (Json.arr (JArr.cons h t), r2)

/-- Parse the continuation of an array after an element: either the closing
bracket or a comma followed by further elements. -/
def parseArrTail : Nat → List Char → Except String (JArr × List Char)
  | 0, _ => Except.error ("too deeply nested")
  | fuel + 1, s =>
    match skipWs s with
    | [] => Except.error ("unterminated array")
    | c :: r =>
      if c = ']' then Except.ok (JArr.nil, r)
      else if c = ',' then do
        let (h, r1) ← parseJ fuel r
        let (t, r2) ← parseArrTail fuel r1
        Except.ok (JArr.cons h t, r2)
      else Except.error ("expected comma or closing bracket")

end

/-- `json.loads`: parse a whole document, requiring only trailing whitespace
after the value. -/
def jsonLoads (s : String) : Except String Json :=
  match parseJ (2 * s.data.length + 2) s.data with
  | Except.ok (j, rest) =>
    if skipWs rest = [] then Except.ok j else Except.error ("extra data")
  | Except.error e => Except.error e

/-! ### Base64 (model of Python's `base64.b64encode` / `base64.b64decode`)

Bytes are natural numbers below 256.  The decoder first discards characters
outside the alphabet (Python's non-validating mode), then consumes quads,
with `=` padding allowed only at the end. -/

/-- The character for one sextet of the standard base64 alphabet. -/
def sextetChar (v : Nat) : Char :=
  if v < 26 then Char.ofNat (65 + v)
  else if v < 52 then Char.ofNat (97 + (v - 26))
  else if v < 62 then Char.ofNat (48 + (v - 52))
  else if v = 62 then '+' else '/'

/-- Inverse of `sextetChar`, `none` off the alphabet. -/
def sextetVal (c : Char) : Option Nat :=
  if 65 ≤ c.toNat ∧ c.toNat ≤ 90 then some (c.toNat - 65)
  else if 97 ≤ c.toNat ∧ c.toNat ≤ 122 then some (c.toNat - 71)
  else if 48 ≤ c.toNat ∧ c.toNat ≤ 57 then some (c.toNat + 4)
  else if c = '+' then some 62
  else if c = '/' then some 63
  else none

/-- `base64.b64encode` over a byte list: three bytes become four characters,
with `=` padding for a final group of one or two bytes. -/
def b64encode : List Nat → List Char
  | [] => []
  | [a] => [sextetChar (a / 4), sextetChar (a % 4 * 16), '=', '=']
  | [a, b] => [sextetChar (a / 4), sextetChar (a % 4 * 16 + b / 16), sextetChar (b % 16 * 4), '=']
  | a :: b :: c :: rest =>
    sextetChar (a / 4) :: sextetChar (a % 4 * 16 + b / 16) ::
      sextetChar (b % 16 * 4 + c / 64) :: sextetChar (c % 64) :: b64encode rest

/-- `binascii.a2b_base64` in non-strict mode, the default of
`base64.b64decode`: a single pass holding the quad position (0-3), the
pending bits of the current group and a padding counter.  Characters off the
alphabet are skipped; a pad character at quad position two (second pad) or
three (first pad) ends the decode, discarding the rest of the input; a pad
at position zero or one is ignored; input ending mid-quad is an error. -/
def b64decLoop : List Char → Nat → Nat → Nat → Except String (List Nat)
  | [], qp, _, _ =>
    if qp = 0 then Except.ok []
    else if qp = 1 then Except.error ("invalid base64 length")
    else Except.error ("incorrect padding")
  | c :: rest, qp, left, pads =>
    if c = '=' then
      if 2 ≤ qp then
        if 4 ≤ qp + (pads + 1) then Except.ok []
        else b64decLoop rest qp left (pads + 1)
      else b64decLoop rest qp left pads
    else
      match sextetVal c with
      | none => b64decLoop rest qp left pads
      | some v =>
        if qp = 0 then b64decLoop rest 1 v 0
        else if qp = 1 then
          match b64decLoop rest 2 (v % 16) 0 with
          | Except.ok bs => Except.ok ((left * 4 + v / 16) :: bs)
          | Except.error e => Except.error e
        else if qp = 2 then
          match b64decLoop rest 3 (v % 4) 0 with
          | Except.ok bs => Except.ok ((left * 16 + v / 4) :: bs)
          | Except.error e => Except.error e
        else
          match b64decLoop rest 0 0 0 with
          | Except.ok bs => Except.ok ((left * 64 + v) :: bs)
          | Except.error e => Except.error e

/-- `base64.b64decode` on a character list. -/
def b64decodeChars (s : List Char) : Except String (List Nat) :=
  b64decLoop s 0 0 0

/-! ### UTF-8 (model of `str.encode("utf-8")` / `bytes.decode("utf-8")`) -/

/-- UTF-8 encoding of one scalar value. -/
def utf8EncodeChar (c : Char) : List Nat :=
  let n := c.toNat
  if n < 128 then [n]
  else if n < 2048 then [192 + n / 64, 128 + n % 64]
  else if n < 65536 then [224 + n / 4096, 128 + n / 64 % 64, 128 + n % 64]
  else [240 + n / 262144, 128 + n / 4096 % 64, 128 + n / 64 % 64, 128 + n % 64]

/-- `str.encode("utf-8")`. -/
def utf8Encode (s : List Char) : List Nat :=
  s.flatMap utf8EncodeChar

/-- Is the byte a UTF-8 continuation byte, and its payload. -/
def contByte (b : Nat) : Option Nat :=
  if 128 ≤ b ∧ b < 192 then some (b - 128) else none

mutual

/-- `bytes.decode("utf-8")`: rejects stray continuation bytes, truncated or
overlong sequences, surrogate values and out-of-range values. -/
def utf8Decode : List Nat → Except String (List Char)
  | [] => Except.ok []
  | b :: rest =>
    if b < 128 then
      match utf8Decode rest with
      | Except.ok cs => Except.ok (Char.ofNat b :: cs)
      | Except.error e => Except.error e
    else if b < 192 then Except.error ("invalid start byte")
    else if b < 224 then utf8Dec2 b rest
    else if b < 240 then utf8Dec3 b rest
    else if b < 248 then utf8Dec4 b rest
    else Except.error ("invalid start byte")

/-- Continuation of `utf8Decode` for a two-byte sequence. -/
def utf8Dec2 (b : Nat) : List Nat → Except String (List Char)
  | b2 :: rest2 =>
    match contByte b2 with
    | some p2 =>
      let n := (b - 192) * 64 + p2
      if n < 128 then Except.error ("overlong encoding")
      else
        match utf8Decode rest2 with
        | Except.ok cs => Except.ok (Char.ofNat n :: cs)
        | Except.error e => Except.error e
    | none => Except.error ("invalid continuation byte")
  | [] => Except.error ("unexpected end of data")

/-- Continuation of `utf8Decode` for a three-byte sequence. -/
def utf8Dec3 (b : Nat) : List Nat → Except String (List Char)
  | b2 :: b3 :: rest3 =>
    match contByte b2, contByte b3 with
    | some p2, some p3 =>
      let n := (b - 224) * 4096 + p2 * 64 + p3
      if n < 2048 then Except.error ("overlong encoding")
      else if 55296 ≤ n ∧ n < 57344 then Except.error ("surrogate")
      else
        match utf8Decode rest3 with
        | Except.ok cs => Except.ok (Char.ofNat n :: cs)
        | Except.error e => Except.error e
    | _, _ => Except.error ("invalid continuation byte")
  | _ => Except.error ("unexpected end of data")

/-- Continuation of `utf8Decode` for a four-byte sequence. -/
def utf8Dec4 (b : Nat) : List Nat → Except String (List Char)
  | b2 :: b3 :: b4 :: rest4 =>
    match contByte b2, contByte b3, contByte b4 with
    | some p2, some p3, some p4 =>
      let n := (b - 240) * 262144 + p2 * 4096 + p3 * 64 + p4
      if n < 65536 then Except.error ("overlong encoding")
      else if 1114112 ≤ n then Except.error ("out of range")
      else
        match utf8Decode rest4 with
        | Except.ok cs => Except.ok (Char.ofNat n :: cs)
        | Except.error e => Except.error e
    | _, _, _ => Except.error ("invalid continuation byte")
  | _ => Except.error ("unexpected end of data")

end

/-- Source `decode_b64_json` (get_polymer_smiles.py):
base64-decode, UTF-8 decode, then `json.loads`. -/
def decode_b64_json (b64 : String) : Except String Json := do
  let bytes ← b64decodeChars b64.data
  let raw ← utf8Decode bytes
  jsonLoads (String.mk raw)

/-- Base64 of the UTF-8 bytes of a compact JSON serialization: the transport
encoding that `decode_b64_json` inverts (the encoder implicit in the API
response). -/
def encodeTransport (j : Json) : String :=
  String.mk (b64encode (utf8Encode (dumps j).data))

/-! ### File names and the output-directory file system

The output directory is an association list from file names to contents;
`fsSet` replaces any previous binding, `fsGet` is lookup, `fsDel` removal. -/

/-- A character kept verbatim by `SAFE_NAME_RE` (the class `[A-Za-z0-9_.-]`). -/
def isSafeChar (c : Char) : Bool :=
  (65 ≤ c.toNat && c.toNat ≤ 90) || (97 ≤ c.toNat && c.toNat ≤ 122) ||
    (48 ≤ c.toNat && c.toNat ≤ 57) || c = '_' || c = '.' || c = '-'

mutual

/-- `SAFE_NAME_RE.sub("_", stem)`: each maximal run of unsafe characters
becomes a single underscore. -/
def squash : List Char → List Char
  | [] => []
  | c :: t => if isSafeChar c then c :: squash t else '_' :: squashRun t

/-- Continuation of `squash` inside a run of unsafe characters. -/
def squashRun : List Char → List Char
  | [] => []
  | c :: t => if isSafeChar c then c :: squash t else squashRun t

end

/-- Source `safe_filename`: strip, replace unsafe runs by an underscore,
then truncate to 200 characters, with `"unknown"` for an empty result. -/
def safe_filename (stem : String) : String :=
  let s := squash (pyStrip stem.data)
  if s.isEmpty then "unknown" else String.mk (s.take 200)

/-- Source `looks_blocked`: non-200 status, or a content type that does not
mention json (case-insensitively), is a block. -/
def looks_blocked (status : Nat) (content_type : String) : Bool :=
  if status ≠ 200 then true
  else if !(listContainsSub ("json").data (lowerStr content_type).data) then true
  else false

/-- Lookup in the output directory. -/
def fsGet : List (String × String) → String → Option String
  | [], _ => none
  | (n, c) :: t, k => if n = k then some c else fsGet t k

/-- Remove a file. -/
def fsDel (fs : List (String × String)) (k : String) : List (String × String) :=
  fs.filter (fun e => !(e.1 = k))

/-- Create or overwrite a file. -/
def fsSet (fs : List (String × String)) (k v : String) : List (String × String) :=
  (k, v) :: fsDel fs k

/-- `path.with_suffix(path.suffix + ".tmp")`: the sibling temporary path. -/
def tmpName (path : String) : String := path ++ (".tmp")

/-- First phase of `atomic_write_json`: `tmp.write_text(json.dumps(obj,
ensure_ascii=False, indent=2))`.  This is the state visible if the process
stops before the rename. -/
def writeTmpPhase (fs : List (String × String)) (path : String) (obj : Json) :
    List (String × String) :=
  fsSet fs (tmpName path) (dumpsIndent2 obj)

/-- Source `atomic_write_json`: write the serialized record to the sibling
temporary path, then `tmp.replace(path)` renames it onto the target in one
atomic step. -/
def atomic_write_json (fs : List (String × String)) (path : String) (obj : Json) :
    List (String × String) :=
  let fs1 := writeTmpPhase fs path obj
  fsSet (fsDel fs1 (tmpName path)) path (dumpsIndent2 obj)

/-- The completion-pointer file name for an item identifier
(`f"{safe_filename(pid_uuid)}.pointer.json"`). -/
def pointerName (pid : String) : String :=
  safe_filename pid ++ (".pointer.json")

/-- The `polymer_id` field of the decoded record when it is a non-empty
string (the code requires truthiness and `isinstance(str)`). -/
def polymerIdOf (dkvs : JObj) : Option String :=
  match jGet dkvs ("polymer_id") with
  | some (Json.str s) => if s = "" then none else some s
  | _ => none

/-- Python `polymer_id or "unknown"` on the optional field value: the value
itself when truthy, else the string `"unknown"`. -/
def orUnknown : Option Json → Json
  | some v => if jsonTruthy v then v else Json.str ("unknown")
  | none => Json.str ("unknown")

/-- `safe_filename` applied to a dynamically typed value: only a `str` has
`.strip`, so any other argument raises `AttributeError` (line 180 passes
`polymer_id or "unknown"` unguarded). -/
def safeOfJson : Json → Except String String
  | Json.str s => Except.ok (safe_filename s)
  | _ => Except.error ("AttributeError: strip")

/-- Output-file name resolution (main, lines 172-180): name by the sanitized
`polymer_id` when it is a truthy string, else by the item identifier; if that
name already exists, use the composite of both — where the composite stem is
`safe_filename(polymer_id or "unknown")`, which raises when the field is a
truthy non-string. -/
def resolve_out_name (dkvs : JObj) (pid : String) (fs : List (String × String)) :
    Except String String :=
  let fname :=
    match polymerIdOf dkvs with
    | some s => safe_filename s ++ (".json")
    | none => safe_filename pid ++ (".json")
  if (fsGet fs fname).isSome then
    match safeOfJson (orUnknown (jGet dkvs ("polymer_id"))) with
    | Except.ok stem =>
      Except.ok (stem ++ ("__") ++ safe_filename pid ++ (".json"))
    | Except.error e => Except.error e
  else Except.ok fname

/-- The record appended by `append_index` (one compact JSON line). -/
def indexLine (ts pid : String) (dkvs : JObj) (filename : String) : String :=
  dumps (Json.obj (JObj.cons ("ts") (Json.str ts)
    (JObj.cons ("pid_uuid") (Json.str pid)
      (JObj.cons ("polymer_id") (jGetD dkvs ("polymer_id") Json.null)
        (JObj.cons ("polymer_uuid") (jGetD dkvs ("polymer_uuid") Json.null)
          (JObj.cons ("filename") (Json.str filename) JObj.nil))))))

/-- The content of the completion pointer written for an item. -/
def pointerObj (pid filename : String) : Json :=
  Json.obj (JObj.cons ("pid_uuid") (Json.str pid)
    (JObj.cons ("filename") (Json.str filename) JObj.nil))

/-! ### The fetch driver (`main`) -/

/-- Python truthiness of the token slot (`None` and the empty string are
falsy). -/
def pyTruthyStr : Option String → Bool
  | none => false
  | some s => !(s = "")

/-- Source `ensure_captcha_id`: a held truthy token is returned as-is;
otherwise the operator is prompted once and the token possibly observed
during the wait (`learned`) is taken; the result reports truthiness of the
final slot. -/
def ensure_captcha_id (cur learned : Option String) : Option String × Bool :=
  if pyTruthyStr cur then (cur, true)
  else
    let upd := match learned with
      | some s => some s
      | none => cur
    (upd, pyTruthyStr upd)

/-- An HTTP response as the driver observes it: status, the content-type
header if present, and the body text. -/
structure Response : Type where
  status : Nat
  contentType : Option String
  body : String

/-- The per-iteration environment: the token observed while waiting (if any),
the operator's console line (after `strip().lower()`), the token observed
during an `r` relearn wait, the network outcome (a transport fault or a
response), injected persistence faults, and the wall-clock timestamp used by
`append_index`. -/
structure Env : Type where
  learned : Option String
  cmd : String
  relearned : Option String
  resp : Except String Response
  failOutput : Option String
  failIndex : Option String
  failPointer : Option String
  ts : String

/-- Observable actions of one loop iteration, in order of occurrence. -/
inductive Event : Type where
  | request : String → Event
  | decodeOk : Event
  | writeOutput : String → String → Event
  | appendIndex : String → Event
  | writePointer : String → String → Event
deriving DecidableEq

/-- Outcome of the `try` block of the loop body. -/
inductive FOut : Type where
  | saved : FOut
  | retry : FOut
  | failed : String → FOut
deriving DecidableEq

/-- Result of the `try` block: the (possibly partially) updated output
directory and index, the events on the trace, and the outcome. -/
structure FetchRes : Type where
  files : List (String × String)
  index : List String
  events : List Event
  out : FOut

/-- The `try` block of the loop body (main, lines 151-189): request the item,
classify the response, decode, resolve the output name, write the output
file, append the index line, write the completion pointer.  A transport
fault, a body that is not JSON, a missing or ill-typed payload field, a
decode failure or an injected persistence fault produce `FOut.failed` with
the mutations performed so far kept, matching exception semantics. -/
def fetch_item (env : Env) (pid : String) (files : List (String × String))
    (index : List String) : FetchRes :=
  match env.resp with
  | Except.error e => ⟨files, index, [Event.request pid], FOut.failed e⟩
  | Except.ok resp =>
    let ct := resp.contentType.getD ""
    if looks_blocked resp.status ct then
      ⟨files, index, [Event.request pid], FOut.retry⟩
    else
      match jsonLoads resp.body with
      | Except.error e => ⟨files, index, [Event.request pid], FOut.failed e⟩
      | Except.ok top =>
        match top with
        | Json.obj tkvs =>
          if jsonTruthy (jGetD tkvs ("result") (Json.bool false)) = false then
            ⟨files, index, [Event.request pid], FOut.retry⟩
          else
            match jGet tkvs ("json") with
            | none =>
              ⟨files, index, [Event.request pid], FOut.failed ("KeyError: json")⟩
            | some (Json.str b64) =>
              match decode_b64_json b64 with
              | Except.error e =>
                ⟨files, index, [Event.request pid], FOut.failed e⟩
              | Except.ok decoded =>
                match decoded with
                | Json.obj dkvs =>
                  match env.failOutput with
                  | some m =>
                    ⟨files, index, [Event.request pid, Event.decodeOk],
                      FOut.failed m⟩
                  | none =>
                    match resolve_out_name dkvs pid files with
                    | Except.error e =>
                      ⟨files, index, [Event.request pid, Event.decodeOk],
                        FOut.failed e⟩
                    | Except.ok outName =>
                      let content := dumpsIndent2 (Json.obj dkvs)
                      let files1 := atomic_write_json files outName (Json.obj dkvs)
                      match env.failIndex with
                      | some m =>
                        ⟨files1, index,
                          [Event.request pid, Event.decodeOk,
                            Event.writeOutput outName content], FOut.failed m⟩
                      | none =>
                        let line := indexLine env.ts pid dkvs outName
                        let index1 := index ++ [line]
                        match env.failPointer with
                        | some m =>
                          ⟨files1, index1,
                            [Event.request pid, Event.decodeOk,
                              Event.writeOutput outName content,
                              Event.appendIndex line], FOut.failed m⟩
                        | none =>
                          let pContent := dumpsIndent2 (pointerObj pid outName)
                          let files2 :=
                            atomic_write_json files1 (pointerName pid)
                              (pointerObj pid outName)
                          ⟨files2, index1,
                            [Event.request pid, Event.decodeOk,
                              Event.writeOutput outName content,
                              Event.appendIndex line,
                              Event.writePointer (pointerName pid) pContent],
                            FOut.saved⟩
                | _ =>
                  ⟨files, index, [Event.request pid, Event.decodeOk],
                    FOut.failed ("AttributeError: get")⟩
            | some _ =>
              ⟨files, index, [Event.request pid],
                FOut.failed ("TypeError: b64decode argument")⟩
        | _ =>
          ⟨files, index, [Event.request pid],
            FOut.failed ("AttributeError: get")⟩

/-- Driver state: the queue index, the process-wide token slot, the output
directory (output files and pointer files), the index lines and the error
log lines. -/
structure DState : Type where
  idx : Nat
  captcha : Option String
  files : List (String × String)
  index : List String
  errors : List String

/-- Result of one loop iteration. -/
structure StepOut : Type where
  state : DState
  events : List Event
  halted : Bool

/-- One iteration of the stepper loop (main, lines 122-196): skip an item
whose completion pointer exists; otherwise ensure a token (halting the run
if one cannot be captured), process the operator command (`q` halts, `s`
skips, `r` relearns without advancing), and otherwise run the `try` block:
`saved` advances the index, `retry` leaves it, an exception appends one
tab-separated error line and leaves it. -/
def step (pids : List String) (env : Env) (s : DState) : StepOut :=
  match pids.get? s.idx with
  | none => ⟨s, [], true⟩
  | some pid =>
    if (fsGet s.files (pointerName pid)).isSome then
      ⟨{ s with idx := s.idx + 1 }, [], false⟩
    else
      let ens := ensure_captcha_id s.captcha env.learned
      let s1 := { s with captcha := ens.1 }
      if ens.2 = false then ⟨s1, [], true⟩
      else if env.cmd = "q" then ⟨s1, [], true⟩
      else if env.cmd = "s" then ⟨{ s1 with idx := s1.idx + 1 }, [], false⟩
      else if env.cmd = "r" then ⟨{ s1 with captcha := env.relearned }, [], false⟩
      else
        let fr := fetch_item env pid s1.files s1.index
        match fr.out with
        | FOut.saved =>
          ⟨{ s1 with files := fr.files, index := fr.index, idx := s1.idx + 1 },
            fr.events, false⟩
        | FOut.retry =>
          ⟨{ s1 with files := fr.files, index := fr.index }, fr.events, false⟩
        | FOut.failed e =>
          let errs := s1.errors ++ [pid ++ ("\t") ++ e]
          ⟨{ s1 with files := fr.files, index := fr.index, errors := errs },
            fr.events, false⟩

/-- The stepper loop: one environment is consumed per iteration; the loop
ends when the queue is exhausted, the environment list runs out, or an
iteration halts the run (token failure or operator quit). -/
def run (pids : List String) : List Env → DState → DState × List Event
  | [], s => (s, [])
  | e :: es, s =>
    if s.idx < pids.length then
      let o := step pids e s
      if o.halted then (o.state, o.events)
      else
        let r := run pids es o.state
        (r.1, o.events ++ r.2)
    else (s, [])

/-! ### The level-1 loaders (`load_poly.py` and `src/load_poly.py`)

Both read the 64 files `b64_{i}.txt` (differing only in directory prefix),
strip, base64-decode, UTF-8-decode, parse as JSON and take the
`polymer_data` field.  The embedding abstracts the directory into a mapping
from file number to contents. -/

/-- One iteration of the loader body:
`json.loads(base64.b64decode(f.read().strip()).decode("utf-8"))["polymer_data"]`. -/
def load_one (content : String) : Except String Json := do
  let bytes ← b64decodeChars (pyStrip content.data)
  let raw ← utf8Decode bytes
  let j ← jsonLoads (String.mk raw)
  match j with
  | Json.obj kvs =>
    match jGet kvs ("polymer_data") with
    | some v => Except.ok v
    | none => Except.error ("KeyError: polymer_data")
  | _ => Except.error ("TypeError: not subscriptable")

/-- The accumulation loop of `load_poly` over the list of file numbers. -/
def loadLoop (files : Nat → String) : List Nat → Except String (List Json)
  | [] => Except.ok []
  | i :: is => do
    let x ← load_one (files i)
    let xs ← loadLoop files is
    Except.ok (x :: xs)

/-- The accumulation loop of `load_poly_lvl1` over the list of file numbers
(textually identical body reading from a different directory). -/
def loadLoopLvl1 (files : Nat → String) : List Nat → Except String (List Json)
  | [] => Except.ok []
  | i :: is => do
    let x ← load_one (files i)
    let xs ← loadLoopLvl1 files is
    Except.ok (x :: xs)

/-- Source `load_poly` (load_poly.py): files `./data/b64_1.txt` through
`./data/b64_64.txt`, in file-number order. -/
def load_poly (files : Nat → String) : Except String (List Json) :=
  loadLoop files ((List.range 64).map (fun i => i + 1))

/-- Source `load_poly_lvl1` (src/load_poly.py): files
`../data/lvl1_b64/b64_1.txt` through `b64_64.txt`, in file-number order. -/
def load_poly_lvl1 (files : Nat → String) : Except String (List Json) :=
  loadLoopLvl1 files ((List.range 64).map (fun i => i + 1))

/-! ### Concrete scenarios -/

/-- A successful API body: `result` true and the transport-encoded record. -/
def mkBody (r : Json) : String :=
  dumps (Json.obj (JObj.cons ("result") (Json.bool true)
    (JObj.cons ("json") (Json.str (encodeTransport r)) JObj.nil)))

/-- An environment whose request succeeds and returns the given record. -/
def okEnv (r : Json) : Env :=
  ⟨some "tok0", "", none, Except.ok ⟨200, some ("application/json"), mkBody r⟩,
    none, none, none, "2025-01-01T00:00:00Z"⟩

/-- The initial driver state with a held token. -/
def s0 : DState := ⟨0, some "tok0", [], [], []⟩

/-- A one-field record with the given polymer id. -/
def recP (p : String) : Json :=
  Json.obj (JObj.cons ("polymer_id") (Json.str p) JObj.nil)

/-- A record with a polymer id and one extra field. -/
def recPK (p k : String) : Json :=
  Json.obj (JObj.cons ("polymer_id") (Json.str p)
    (JObj.cons ("k") (Json.str k) JObj.nil))

/-- Queue for the composite-name collision scenario. -/
def c4pids : List String := ["x1", "x2", "c", "b__c"]

/-- Environments for the composite-name collision scenario: four successful
fetches whose records make items 3 and 4 resolve to the same composite
output name. -/
def c4envs : List Env :=
  [okEnv (recP ("a__b")), okEnv (recP ("a")),
    okEnv (recPK ("a__b") ("c")), okEnv (recPK ("a") ("d"))]

/-- Final state of the composite-name collision run. -/
def c4final : DState := (run c4pids c4envs s0).1

/-- An environment whose request is answered with a 403 HTML page. -/
def env403 : Env :=
  ⟨some "tok0", "", none, Except.ok ⟨403, some ("text/html"), "denied"⟩,
    none, none, none, "2025-01-01T00:00:00Z"⟩

/-- An environment whose request raises a transport fault. -/
def envErr : Env :=
  ⟨some "tok0", "", none, Except.error ("boom"), none, none, none,
    "2025-01-01T00:00:00Z"⟩

/-- An environment in which no token is held and none is observed while the
operator is prompted. -/
def envNoTok : Env :=
  ⟨none, "", none, Except.error ("x"), none, none, none,
    "2025-01-01T00:00:00Z"⟩

/-- A one-item queue. -/
def pids1 : List String := ["p1"]

/-- The initial driver state with an empty token slot. -/
def sNoTok : DState := ⟨0, none, [], [], []⟩

/-- A state in which the single queued item already has a completion
pointer. -/
def sPtr : DState := ⟨0, some "tok0", [(pointerName ("p1"), "done")], [], []⟩

/-- Characters that can start a printed JSON value. -/
def jStart (c : Char) : Bool :=
  c = lbrace || c = '[' || c = '"' || c = 't' || c = 'f' || c = 'n' ||
    c = '-' || isDig c

/-- The continuation does not start with a digit (so that a parsed number is
not extended into it). -/
def noDigitHead : List Char → Prop
  | [] => True
  | c :: _ => isDig c = false

/-- The characters of a printed array after its opening bracket. -/
def arrBodyChars (st : PrintStyle) (d : Nat) : JArr → List Char
  | JArr.nil => [']']
  | JArr.cons h t =>
    st.afterOpen d ++ printJ st (d + 2) h ++ printArrT st d t ++
      st.beforeClose d ++ [']']

/-- The characters of a printed object after its opening bracket. -/
def objBodyChars (st : PrintStyle) (d : Nat) : JObj → List Char
  | JObj.nil => [rbrace]
  | JObj.cons k v t =>
    st.afterOpen d ++ printStr k ++ [':', ' '] ++ printJ st (d + 2) v ++
      printObjT st d t ++ st.beforeClose d ++ [rbrace]

/-- A base64 file content whose decoded JSON object carries a null
`polymer_data` field. -/
def lvlFile : String :=
  String.mk (b64encode (utf8Encode
    (dumps (Json.obj (JObj.cons ("polymer_data") Json.null JObj.nil))).data))

/-- Sixty-four identical loader input files. -/
def lvlFiles : Nat → String := fun _ => lvlFile

/-! ## Theorems -/

/-! ### File-system lemmas -/

theorem fsGet_fsDel_self (fs : List (String × String)) (k : String) :
    fsGet (fsDel fs k) k = none := by
  induction fs with
  | nil => rfl
  | cons e t ih =>
    by_cases h : e.1 = k
    · simpa [fsDel, h] using ih
    · simpa [fsDel, fsGet, h] using ih

theorem fsGet_fsDel_ne (fs : List (String × String)) (k k' : String)
    (h : k' ≠ k) : fsGet (fsDel fs k) k' = fsGet fs k' := by
  induction fs with
  | nil => rfl
  | cons e t ih =>
    by_cases he : e.1 = k
    · have hne : ¬ e.1 = k' := fun hk => h (hk ▸ he)
      have hfil : fsDel (e :: t) k = fsDel t k := by
        simp [fsDel, List.filter_cons, he]
      rw [hfil, ih]
      simp [fsGet, hne]
    · have hfil : fsDel (e :: t) k = e :: fsDel t k := by
        simp [fsDel, List.filter_cons, he]
      rw [hfil]
      by_cases he2 : e.1 = k'
      · simp [fsGet, he2]
      · simp [fsGet, he2, ih]

theorem fsGet_fsSet_self (fs : List (String × String)) (k v : String) :
    fsGet (fsSet fs k v) k = some v := by
  simp [fsSet, fsGet]

theorem fsGet_fsSet_ne (fs : List (String × String)) (k v k' : String)
    (h : k' ≠ k) : fsGet (fsSet fs k v) k' = fsGet fs k' := by
  have hne : ¬ k = k' := fun e => h e.symm
  simp [fsSet, fsGet, hne]
  exact fsGet_fsDel_ne fs k k' h

theorem tmpName_ne (path : String) : tmpName path ≠ path := by
  intro h
  have h2 := congrArg String.length h
  simp only [tmpName, String.length_append] at h2
  have h4 : (".tmp").length = 4 := rfl
  omega

/-- C6: the Durable Writer writes the serialized record to a sibling
temporary path and then renames it onto the target atomically: at the crash
point between the temporary write and the rename the target still holds its
previous state (absent or prior content), and after the rename the target
holds the complete serialization and the temporary file is gone. -/
theorem atomic_write_crash_safe (fs : List (String × String)) (path : String)
    (obj : Json) :
    fsGet (writeTmpPhase fs path obj) path = fsGet fs path
    ∧ fsGet (atomic_write_json fs path obj) path = some (dumpsIndent2 obj)
    ∧ fsGet (atomic_write_json fs path obj) (tmpName path) = none := by
  refine ⟨?_, ?_, ?_⟩
  · exact fsGet_fsSet_ne fs (tmpName path) (dumpsIndent2 obj) path
      (fun h => tmpName_ne path h.symm)
  · exact fsGet_fsSet_self _ path (dumpsIndent2 obj)
  · rw [atomic_write_json, fsGet_fsSet_ne _ _ _ _ (tmpName_ne path)]
    exact fsGet_fsDel_self _ _

/-! ### C2: blocked responses -/

theorem fetch_item_blocked (env : Env) (pid : String)
    (files : List (String × String)) (index : List String) (resp : Response)
    (h1 : env.resp = Except.ok resp)
    (h2 : looks_blocked resp.status (resp.contentType.getD "") = true) :
    fetch_item env pid files index =
      ⟨files, index, [Event.request pid], FOut.retry⟩ := by
  simp [fetch_item, h1, h2]

/-- C2: a response is classified as blocked exactly when its status is not
200 or its (lower-cased) content type does not contain "json", a missing
content type counting as blocked; and a blocked response leaves the item
pending: the queue index, the output directory, the index and the error log
are unchanged, only the request itself is on the trace and the run does not
halt. -/
theorem blocked_response_leaves_item_pending :
    (∀ (status : Nat) (ct : String),
      looks_blocked status ct = true ↔
        (status ≠ 200 ∨
          listContainsSub ("json").data (lowerStr ct).data = false))
    ∧ (∀ r : Response, r.contentType = none →
        looks_blocked r.status (r.contentType.getD "") = true)
    ∧ (∀ (pids : List String) (env : Env) (s : DState) (pid : String)
        (resp : Response),
        pids.get? s.idx = some pid →
        fsGet s.files (pointerName pid) = none →
        (ensure_captcha_id s.captcha env.learned).2 = true →
        env.cmd ≠ "q" → env.cmd ≠ "s" → env.cmd ≠ "r" →
        env.resp = Except.ok resp →
        looks_blocked resp.status (resp.contentType.getD "") = true →
        (step pids env s).state.idx = s.idx
        ∧ (step pids env s).state.files = s.files
        ∧ (step pids env s).state.index = s.index
        ∧ (step pids env s).state.errors = s.errors
        ∧ (step pids env s).halted = false
        ∧ (step pids env s).events = [Event.request pid]) := by
  refine ⟨?_, ?_, ?_⟩
  · intro status ct
    by_cases hs : status = 200
    · by_cases hc : listContainsSub ("json").data (lowerStr ct).data = true
      · simp [looks_blocked, hs, hc]
      · simp only [Bool.not_eq_true] at hc
        simp [looks_blocked, hs, hc]
    · simp [looks_blocked, hs]
  · intro r hr
    rcases r with ⟨st, ct, body⟩
    simp only at hr
    subst hr
    by_cases hs : st = 200
    · subst hs
      simp [looks_blocked]
      rfl
    · simp [looks_blocked, hs]
  · intro pids env s pid resp hpid hptr hens hq hs hr h1 h2
    have hblocked := fetch_item_blocked env pid s.files s.index resp h1 h2
    simp only [step, hpid, hptr, Option.isSome_none, Bool.false_eq_true,
      if_false, hens, if_true, hq, hs, hr, if_false]
    simp [step, hpid, hptr, hens, hq, hs, hr, hblocked]

/-- Witness for C2 at a concrete 403 `text/html` response. -/
theorem blocked_response_witness :
    (looks_blocked 403 ("text/html") = true ↔
      (403 ≠ 200 ∨
        listContainsSub ("json").data (lowerStr ("text/html")).data = false))
    ∧ ((step pids1 env403 s0).state.idx = s0.idx
      ∧ (step pids1 env403 s0).state.files = s0.files
      ∧ (step pids1 env403 s0).state.index = s0.index
      ∧ (step pids1 env403 s0).state.errors = s0.errors
      ∧ (step pids1 env403 s0).halted = false
      ∧ (step pids1 env403 s0).events = [Event.request ("p1")]) := by
  constructor
  · exact blocked_response_leaves_item_pending.1 403 ("text/html")
  · exact blocked_response_leaves_item_pending.2.2 pids1 env403 s0 ("p1")
      ⟨403, some ("text/html"), "denied"⟩ rfl rfl (by decide)
      (by decide) (by decide) (by decide) rfl (by decide)

/-! ### C5: exceptions -/

theorem fetch_item_pointer_only_saved (env : Env) (pid : String)
    (files : List (String × String)) (index : List String) :
    (fetch_item env pid files index).out = FOut.saved ∨
      ∀ n c, Event.writePointer n c ∉ (fetch_item env pid files index).events := by
  unfold fetch_item
  split
  · simp
  next resp heq =>
    by_cases hb : looks_blocked resp.status (resp.contentType.getD "") = true
    · simp [hb]
    · simp only [hb, if_false, Bool.false_eq_true]
      repeat' split
      all_goals simp

/-- C5: every exception raised inside the try block (request, decode or
persistence) appends exactly one tab-separated line holding the item
identifier and the failure description to the error log, leaves the queue
index unchanged (the item stays pending: no completion pointer is written on
the trace) and does not halt the run. -/
theorem exception_appends_one_error_line (pids : List String) (env : Env)
    (s : DState) (pid : String) (e : String)
    (hpid : pids.get? s.idx = some pid)
    (hptr : fsGet s.files (pointerName pid) = none)
    (hens : (ensure_captcha_id s.captcha env.learned).2 = true)
    (hq : env.cmd ≠ "q") (hs : env.cmd ≠ "s") (hr : env.cmd ≠ "r")
    (hfail : (fetch_item env pid s.files s.index).out = FOut.failed e) :
    (step pids env s).state.errors = s.errors ++ [pid ++ ("\t") ++ e]
    ∧ (step pids env s).state.idx = s.idx
    ∧ (step pids env s).halted = false
    ∧ ∀ n c, Event.writePointer n c ∉ (step pids env s).events := by
  have hnoptr :
      ∀ n c, Event.writePointer n c ∉ (fetch_item env pid s.files s.index).events := by
    rcases fetch_item_pointer_only_saved env pid s.files s.index with hsv | hno
    · rw [hfail] at hsv
      exact absurd hsv (by simp)
    · exact hno
  have hstep :
      step pids env s =
        ⟨⟨s.idx,
          (ensure_captcha_id s.captcha env.learned).1,
          (fetch_item env pid s.files s.index).files,
          (fetch_item env pid s.files s.index).index,
          s.errors ++ [pid ++ ("\t") ++ e]⟩,
          (fetch_item env pid s.files s.index).events, false⟩ := by
    have hpid2 : pids[s.idx]? = some pid := by simpa using hpid
    simp [step, hpid2, hptr, hens, hq, hs, hr, hfail]
  rw [hstep]
  exact ⟨rfl, rfl, rfl, hnoptr⟩

/-- Witness for C5 at a concrete transport fault. -/
theorem exception_error_line_witness :
    (step pids1 envErr s0).state.errors = s0.errors ++ [("p1") ++ ("\t") ++ ("boom")]
    ∧ (step pids1 envErr s0).state.idx = s0.idx
    ∧ (step pids1 envErr s0).halted = false
    ∧ ∀ n c, Event.writePointer n c ∉ (step pids1 envErr s0).events :=
  exception_appends_one_error_line pids1 envErr s0 ("p1") ("boom") rfl rfl
    (by decide) (by decide) (by decide) (by decide) rfl

/-! ### C1: resumability -/

theorem step_skips_completed (pids : List String) (env : Env) (s : DState)
    (pid : String) (hpid : pids.get? s.idx = some pid)
    (hptr : (fsGet s.files (pointerName pid)).isSome = true) :
    step pids env s = ⟨{ s with idx := s.idx + 1 }, [], false⟩ := by
  have hpid2 : pids[s.idx]? = some pid := by simpa using hpid
  simp [step, hpid2, hptr]

/-- C1: an item whose completion pointer exists is passed over with no
events at all (in particular no network request), the queue index advancing
by one; consequently a run over a queue all of whose identifiers already
have completion pointers produces an empty trace (zero network requests) and
simply advances to the end of the queue. -/
theorem completed_identifiers_skipped_without_requests (pids : List String) :
    (∀ (env : Env) (s : DState) (pid : String),
      pids.get? s.idx = some pid →
      (fsGet s.files (pointerName pid)).isSome = true →
      step pids env s = ⟨{ s with idx := s.idx + 1 }, [], false⟩)
    ∧ (∀ (envs : List Env) (s : DState),
        (∀ pid ∈ pids, (fsGet s.files (pointerName pid)).isSome = true) →
        s.idx ≤ pids.length →
        pids.length ≤ s.idx + envs.length →
        (run pids envs s).2 = []
        ∧ (run pids envs s).1.idx = pids.length
        ∧ (run pids envs s).1.files = s.files) := by
  constructor
  · intro env s pid hpid hptr
    exact step_skips_completed pids env s pid hpid hptr
  · intro envs
    induction envs with
    | nil =>
      intro s hall hle hfuel
      simp only [List.length_nil] at hfuel
      have hidx : s.idx = pids.length := by omega
      exact ⟨rfl, hidx, rfl⟩
    | cons e es ih =>
      intro s hall hle hfuel
      simp only [List.length_cons] at hfuel
      by_cases hlt : s.idx < pids.length
      · have hpid : pids.get? s.idx = some (pids.get ⟨s.idx, hlt⟩) :=
          List.get?_eq_get hlt
        have hmem : pids.get ⟨s.idx, hlt⟩ ∈ pids := List.get_mem pids s.idx hlt
        have hstep := step_skips_completed pids e s (pids.get ⟨s.idx, hlt⟩)
          hpid (hall _ hmem)
        have hrec := ih { s with idx := s.idx + 1 } hall
          (by show s.idx + 1 ≤ pids.length; omega)
          (by show pids.length ≤ s.idx + 1 + es.length; omega)
        simp only [run, hlt, if_true, hstep]
        simpa using hrec
      · have hidx : s.idx = pids.length := by omega
        simp only [run, hlt, if_false]
        exact ⟨trivial, hidx, trivial⟩

/-- Witness for C1: a second run over a one-item queue whose pointer file
exists performs no request. -/
theorem completed_identifiers_witness :
    (run pids1 [envErr] sPtr).2 = []
    ∧ (run pids1 [envErr] sPtr).1.idx = pids1.length
    ∧ (run pids1 [envErr] sPtr).1.files = sPtr.files :=
  (completed_identifiers_skipped_without_requests pids1).2 [envErr] sPtr
    (by decide) (by decide) (by decide)

/-! ### C9: the only fatal condition -/

/-- C9: `ensure_captcha_id` fails exactly when no truthy token is held and
none is observed during the single operator prompt; such a failure halts the
whole run before any request (the step halts, emits nothing, and `run`
attempts no further item), while with a token present every other outcome of
a fetch step — blocked response, decode failure, write failure, transport
failure — leaves the run going (only the operator command `q` also ends
it). -/
theorem token_absence_is_the_only_fatal_condition :
    (∀ cur learned, (ensure_captcha_id cur learned).2 = false ↔
      (pyTruthyStr cur = false ∧ pyTruthyStr learned = false))
    ∧ (∀ (pids : List String) (env : Env) (s : DState) (pid : String),
        pids.get? s.idx = some pid →
        fsGet s.files (pointerName pid) = none →
        (ensure_captcha_id s.captcha env.learned).2 = false →
        (step pids env s).halted = true
        ∧ (step pids env s).events = []
        ∧ (step pids env s).state.idx = s.idx)
    ∧ (∀ (pids : List String) (e : Env) (es : List Env) (s : DState),
        s.idx < pids.length →
        (step pids e s).halted = true →
        run pids (e :: es) s = ((step pids e s).state, (step pids e s).events))
    ∧ (∀ (pids : List String) (env : Env) (s : DState) (pid : String),
        pids.get? s.idx = some pid →
        fsGet s.files (pointerName pid) = none →
        (ensure_captcha_id s.captcha env.learned).2 = true →
        env.cmd ≠ "q" →
        (step pids env s).halted = false) := by
  refine ⟨?_, ?_, ?_, ?_⟩
  · intro cur learned
    rcases cur with _ | c
    · rcases learned with _ | l
      · simp [ensure_captcha_id, pyTruthyStr]
      · by_cases hl : l = "" <;> simp [ensure_captcha_id, pyTruthyStr, hl]
    · by_cases hc : c = ""
      · rcases learned with _ | l
        · simp [ensure_captcha_id, pyTruthyStr, hc]
        · by_cases hl : l = "" <;>
            simp [ensure_captcha_id, pyTruthyStr, hc, hl]
      · simp [ensure_captcha_id, pyTruthyStr, hc]
  · intro pids env s pid hpid hptr hens
    have hpid2 : pids[s.idx]? = some pid := by simpa using hpid
    simp [step, hpid2, hptr, hens]
  · intro pids e es s hlt hhalt
    simp [run, hlt, hhalt]
  · intro pids env s pid hpid hptr hens hq
    have hpid2 : pids[s.idx]? = some pid := by simpa using hpid
    by_cases hs : env.cmd = "s"
    · simp [step, hpid2, hptr, hens, hq, hs]
    · by_cases hr : env.cmd = "r"
      · simp [step, hpid2, hptr, hens, hq, hs, hr]
      · simp only [step, hpid2, hptr, hens, hq, hs, hr]
        simp only [Option.isSome_none, Bool.false_eq_true, if_false, if_true,
          ite_false]
        split <;> (simp_all; try (split <;> simp))

/-- Witness for C9 at concrete states: an empty token slot with no observed
token halts the run; a held token with a blocked response does not. -/
theorem token_absence_witness :
    ((ensure_captcha_id none none).2 = false ↔
      (pyTruthyStr none = false ∧ pyTruthyStr none = false))
    ∧ ((step pids1 envNoTok sNoTok).halted = true
      ∧ (step pids1 envNoTok sNoTok).events = []
      ∧ (step pids1 envNoTok sNoTok).state.idx = sNoTok.idx)
    ∧ run pids1 [envNoTok] sNoTok =
        ((step pids1 envNoTok sNoTok).state, (step pids1 envNoTok sNoTok).events)
    ∧ (step pids1 env403 s0).halted = false := by
  refine ⟨?_, ?_, ?_, ?_⟩
  · exact token_absence_is_the_only_fatal_condition.1 none none
  · exact token_absence_is_the_only_fatal_condition.2.1 pids1 envNoTok sNoTok
      ("p1") rfl rfl (by decide)
  · exact token_absence_is_the_only_fatal_condition.2.2.1 pids1 envNoTok []
      sNoTok (by decide) (by decide)
  · exact token_absence_is_the_only_fatal_condition.2.2.2 pids1 env403 s0
      ("p1") rfl rfl (by decide) (by decide)

/-! ### C7: output-file naming -/

theorem safe_filename_length_pos (s : String) : 1 ≤ (safe_filename s).length := by
  unfold safe_filename
  by_cases he : (squash (pyStrip s.data)).isEmpty
  · simp only [he, if_true]
    decide
  · simp only [he, if_false, Bool.false_eq_true]
    have hmk : (String.mk ((squash (pyStrip s.data)).take 200)).length =
        ((squash (pyStrip s.data)).take 200).length := rfl
    rw [hmk, List.length_take]
    have hne : squash (pyStrip s.data) ≠ [] := by
      simpa [List.isEmpty_iff] using he
    have hpos : 0 < (squash (pyStrip s.data)).length := List.length_pos.mpr hne
    omega

/-- C7: the output file is named by the sanitized `polymer_id` plus `.json`
when that field is a truthy string and the name is free; when the field is
absent the name falls back to the item identifier; a taken name is
disambiguated by the deterministic composite of both; and two records with
the same `polymer_id` processed one after the other resolve to two distinct
names. -/
theorem output_file_naming :
    (∀ (dkvs : JObj) (pid p : String) (fs : List (String × String)),
      jGet dkvs ("polymer_id") = some (Json.str p) → p ≠ "" →
      fsGet fs (safe_filename p ++ (".json")) = none →
      resolve_out_name dkvs pid fs = Except.ok (safe_filename p ++ (".json")))
    ∧ (∀ (dkvs : JObj) (pid : String) (fs : List (String × String)),
        jGet dkvs ("polymer_id") = none →
        fsGet fs (safe_filename pid ++ (".json")) = none →
        resolve_out_name dkvs pid fs =
          Except.ok (safe_filename pid ++ (".json")))
    ∧ (∀ (dkvs : JObj) (pid p : String) (fs : List (String × String)),
        jGet dkvs ("polymer_id") = some (Json.str p) → p ≠ "" →
        (fsGet fs (safe_filename p ++ (".json"))).isSome = true →
        resolve_out_name dkvs pid fs =
          Except.ok (safe_filename p ++ ("__") ++ safe_filename pid ++ (".json")))
    ∧ (∀ (d1 d2 : JObj) (pid1 pid2 p n1 : String)
        (fs : List (String × String)) (c1 : String),
        jGet d1 ("polymer_id") = some (Json.str p) →
        jGet d2 ("polymer_id") = some (Json.str p) → p ≠ "" →
        fsGet fs (safe_filename p ++ (".json")) = none →
        resolve_out_name d1 pid1 fs = Except.ok n1 →
        resolve_out_name d2 pid2 (fsSet fs n1 c1) ≠ Except.ok n1) := by
  have base : ∀ (dkvs : JObj) (pid p : String) (fs : List (String × String)),
      jGet dkvs ("polymer_id") = some (Json.str p) → p ≠ "" →
      fsGet fs (safe_filename p ++ (".json")) = none →
      resolve_out_name dkvs pid fs =
        Except.ok (safe_filename p ++ (".json")) := by
    intro dkvs pid p fs hget hp hfree
    simp [resolve_out_name, polymerIdOf, hget, hp, hfree]
  refine ⟨base, ?_, ?_, ?_⟩
  · intro dkvs pid fs hget hfree
    simp [resolve_out_name, polymerIdOf, hget, hfree]
  · intro dkvs pid p fs hget hp htaken
    simp [resolve_out_name, polymerIdOf, orUnknown, safeOfJson, jsonTruthy,
      hget, hp, htaken]
  · intro d1 d2 pid1 pid2 p n1 fs c1 h1 h2 hp hfree h5
    have hn1 := base d1 pid1 p fs h1 hp hfree
    rw [h5] at hn1
    injection hn1 with he1
    subst he1
    have hn2 : resolve_out_name d2 pid2
        (fsSet fs (safe_filename p ++ (".json")) c1) =
        Except.ok (safe_filename p ++ ("__") ++ safe_filename pid2 ++
          (".json")) := by
      simp [resolve_out_name, polymerIdOf, orUnknown, safeOfJson, jsonTruthy,
        h2, hp, fsGet_fsSet_self]
    rw [hn2]
    intro heq
    injection heq with heq2
    have hlen := congrArg String.length heq2
    simp only [String.length_append] at hlen
    have hpos := safe_filename_length_pos pid2
    have e2 : ("__").length = 2 := rfl
    omega

/-- Witness for C7 at concrete records sharing `polymer_id` "P1". -/
theorem output_file_naming_witness :
    resolve_out_name (JObj.cons ("polymer_id") (Json.str ("P1")) JObj.nil)
        ("u1") [] = Except.ok (safe_filename ("P1") ++ (".json"))
    ∧ resolve_out_name JObj.nil ("u2") [] =
        Except.ok (safe_filename ("u2") ++ (".json"))
    ∧ resolve_out_name (JObj.cons ("polymer_id") (Json.str ("P1")) JObj.nil)
        ("u2") [(safe_filename ("P1") ++ (".json"), "old")] =
        Except.ok (safe_filename ("P1") ++ ("__") ++ safe_filename ("u2") ++
          (".json"))
    ∧ resolve_out_name (JObj.cons ("polymer_id") (Json.str ("P1")) JObj.nil)
        ("u2") (fsSet [] (safe_filename ("P1") ++ (".json")) ("x")) ≠
        Except.ok (safe_filename ("P1") ++ (".json")) := by
  refine ⟨?_, ?_, ?_, ?_⟩
  · exact output_file_naming.1 _ ("u1") ("P1") [] rfl (by decide) rfl
  · exact output_file_naming.2.1 JObj.nil ("u2") [] rfl rfl
  · exact output_file_naming.2.2.1 _ ("u2") ("P1") _ rfl (by decide) (by decide)
  · exact output_file_naming.2.2.2
      (JObj.cons ("polymer_id") (Json.str ("P1")) JObj.nil)
      (JObj.cons ("polymer_id") (Json.str ("P1")) JObj.nil)
      ("u1") ("u2") ("P1") (safe_filename ("P1") ++ (".json")) [] ("x")
      rfl rfl (by decide) rfl (by rfl)

/-! ### C3: the order of the success path -/

/-- C3 (amended): on every successful fetch (healthy response, truthy API
success flag, decodable payload, resolvable output name, no persistence
fault) the driver decodes the payload, resolves the output filename, writes
the output file via the Durable Writer, appends the index entry, then writes
the completion pointer, and then advances the queue index by one.  (The code
appends the index entry before recording the completion pointer.) -/
theorem success_path_event_order (pids : List String) (env : Env) (s : DState)
    (pid : String) (resp : Response) (tkvs : JObj) (b : String) (dkvs : JObj)
    (outName : String)
    (hpid : pids.get? s.idx = some pid)
    (hptr : fsGet s.files (pointerName pid) = none)
    (hens : (ensure_captcha_id s.captcha env.learned).2 = true)
    (hq : env.cmd ≠ "q") (hs : env.cmd ≠ "s") (hr : env.cmd ≠ "r")
    (hresp : env.resp = Except.ok resp)
    (hok : looks_blocked resp.status (resp.contentType.getD "") = false)
    (htop : jsonLoads resp.body = Except.ok (Json.obj tkvs))
    (hres : jsonTruthy (jGetD tkvs ("result") (Json.bool false)) = true)
    (hjson : jGet tkvs ("json") = some (Json.str b))
    (hdec : decode_b64_json b = Except.ok (Json.obj dkvs))
    (hout : resolve_out_name dkvs pid s.files = Except.ok outName)
    (hfo : env.failOutput = none) (hfi : env.failIndex = none)
    (hfp : env.failPointer = none) :
    (step pids env s).events =
      [Event.request pid, Event.decodeOk,
        Event.writeOutput outName (dumpsIndent2 (Json.obj dkvs)),
        Event.appendIndex (indexLine env.ts pid dkvs outName),
        Event.writePointer (pointerName pid)
          (dumpsIndent2 (pointerObj pid outName))]
    ∧ (step pids env s).state.idx = s.idx + 1
    ∧ (step pids env s).halted = false := by
  have hpid2 : pids[s.idx]? = some pid := by simpa using hpid
  have hfetch : fetch_item env pid s.files s.index =
      ⟨atomic_write_json
          (atomic_write_json s.files outName (Json.obj dkvs))
          (pointerName pid) (pointerObj pid outName),
        s.index ++ [indexLine env.ts pid dkvs outName],
        [Event.request pid, Event.decodeOk,
          Event.writeOutput outName (dumpsIndent2 (Json.obj dkvs)),
          Event.appendIndex (indexLine env.ts pid dkvs outName),
          Event.writePointer (pointerName pid)
            (dumpsIndent2 (pointerObj pid outName))],
        FOut.saved⟩ := by
    simp [fetch_item, hresp, hok, htop, hres, hjson, hdec, hout, hfo, hfi, hfp]
  simp [step, hpid2, hptr, hens, hq, hs, hr, hfetch]

/-- C3 counterexample: at a concrete successful fetch the trace is request,
decode, output write, index append, pointer write — the index entry precedes
the completion pointer, refuting the claimed order (pointer before index). -/
theorem success_path_order_counterexample :
    (step pids1 (okEnv (recP ("P123"))) s0).events =
      [Event.request ("p1"), Event.decodeOk,
        Event.writeOutput (("P123") ++ (".json"))
          (dumpsIndent2 (recP ("P123"))),
        Event.appendIndex
          (indexLine ("2025-01-01T00:00:00Z") ("p1")
            (JObj.cons ("polymer_id") (Json.str ("P123")) JObj.nil)
            (("P123") ++ (".json"))),
        Event.writePointer (pointerName ("p1"))
          (dumpsIndent2 (pointerObj ("p1") (("P123") ++ (".json"))))]
    ∧ ¬ ∃ (n c i pn pc : String),
        (step pids1 (okEnv (recP ("P123"))) s0).events =
          [Event.request ("p1"), Event.decodeOk, Event.writeOutput n c,
            Event.writePointer pn pc, Event.appendIndex i] := by
  have h1 : (step pids1 (okEnv (recP ("P123"))) s0).events =
      [Event.request ("p1"), Event.decodeOk,
        Event.writeOutput (("P123") ++ (".json"))
          (dumpsIndent2 (recP ("P123"))),
        Event.appendIndex
          (indexLine ("2025-01-01T00:00:00Z") ("p1")
            (JObj.cons ("polymer_id") (Json.str ("P123")) JObj.nil)
            (("P123") ++ (".json"))),
        Event.writePointer (pointerName ("p1"))
          (dumpsIndent2 (pointerObj ("p1") (("P123") ++ (".json"))))] := by
    rfl
  refine ⟨h1, ?_⟩
  rintro ⟨n, c, i, pn, pc, heq⟩
  rw [h1] at heq
  simp at heq

/-- Witness for the amended C3 at a concrete successful fetch. -/
theorem success_path_event_order_witness :
    (step pids1 (okEnv (recP ("P123"))) s0).events =
      [Event.request ("p1"), Event.decodeOk,
        Event.writeOutput (("P123") ++ (".json"))
          (dumpsIndent2 (Json.obj
            (JObj.cons ("polymer_id") (Json.str ("P123")) JObj.nil))),
        Event.appendIndex
          (indexLine (okEnv (recP ("P123"))).ts ("p1")
            (JObj.cons ("polymer_id") (Json.str ("P123")) JObj.nil)
            (("P123") ++ (".json"))),
        Event.writePointer (pointerName ("p1"))
          (dumpsIndent2 (pointerObj ("p1") (("P123") ++ (".json"))))]
    ∧ (step pids1 (okEnv (recP ("P123"))) s0).state.idx = s0.idx + 1
    ∧ (step pids1 (okEnv (recP ("P123"))) s0).halted = false :=
  success_path_event_order pids1 (okEnv (recP ("P123"))) s0 ("p1")
    ⟨200, some ("application/json"), mkBody (recP ("P123"))⟩
    (JObj.cons ("result") (Json.bool true)
      (JObj.cons ("json") (Json.str (encodeTransport (recP ("P123")))) JObj.nil))
    (encodeTransport (recP ("P123")))
    (JObj.cons ("polymer_id") (Json.str ("P123")) JObj.nil)
    (("P123") ++ (".json"))
    rfl rfl (by decide) (by decide) (by decide) (by decide) rfl rfl
    (by rfl) rfl rfl (by rfl) (by rfl) rfl rfl rfl

/-! ### C4: completion pointers and output files -/

/-- C4 (evaluation at the failing input): after the four-item run of
`c4pids`/`c4envs`, the completion pointer of identifier `c` exists and
records the output name `a__b__c.json`, but that file holds the decoded
record of the later identifier `b__c` — the code resolved the same composite
name for both (the existence of the composite name is never checked) and
overwrote the file, so no output file with identifier `c`'s record remains;
the claimed invariant fails on the code. -/
theorem pointer_without_matching_output_file :
    fsGet c4final.files (pointerName ("c")) =
      some (dumpsIndent2 (pointerObj ("c") ("a__b__c.json")))
    ∧ fsGet c4final.files ("a__b__c.json") =
      some (dumpsIndent2 (recPK ("a") ("d")))
    ∧ dumpsIndent2 (recPK ("a") ("d")) ≠ dumpsIndent2 (recPK ("a__b") ("c"))
    ∧ ∀ e ∈ c4final.files, e.2 ≠ dumpsIndent2 (recPK ("a__b") ("c")) := by
  refine ⟨by rfl, by rfl, by decide, by decide⟩

/-! ### C10: the two level-1 loaders -/

theorem loadLoop_eq_lvl1 (files : Nat → String) (is : List Nat) :
    loadLoop files is = loadLoopLvl1 files is := by
  induction is with
  | nil => rfl
  | cons i t ih => simp [loadLoop, loadLoopLvl1, ih]

theorem loadLoop_ok_spec (files : Nat → String) :
    ∀ (is : List Nat) (l : List Json), loadLoop files is = Except.ok l →
      l.length = is.length ∧
      ∀ (k i : Nat), is.get? k = some i →
        ∃ v, l.get? k = some v ∧ load_one (files i) = Except.ok v := by
  intro is
  induction is with
  | nil =>
    intro l h
    simp only [loadLoop] at h
    cases h
    constructor
    · rfl
    · intro k i hk
      simp at hk
  | cons i t ih =>
    intro l h
    simp only [loadLoop] at h
    cases hx : load_one (files i) with
    | error e => rw [hx] at h; exact Except.noConfusion h
    | ok x =>
      rw [hx] at h
      cases ht : loadLoop files t with
      | error e => rw [ht] at h; exact Except.noConfusion h
      | ok xs =>
        rw [ht] at h
        have h2 : x :: xs = l := Except.ok.inj h
        cases h2
        obtain ⟨hlen, helem⟩ := ih xs ht
        constructor
        · simp [hlen]
        · intro k j hk
          cases k with
          | zero =>
            simp only [List.get?] at hk
            cases hk
            exact ⟨x, rfl, hx⟩
          | succ k2 =>
            simp only [List.get?] at hk
            obtain ⟨v, hv1, hv2⟩ := helem k2 j hk
            exact ⟨v, by simpa using hv1, hv2⟩

/-- C10: the two level-1 loaders are equivalent: on the same file contents
they return equal results, and a successful load yields exactly 64 records
where the k-th one is the `polymer_data` field of the decoded k-th file
(file numbers 1 through 64 in order), as computed by `load_one`. -/
theorem level1_loaders_equivalent :
    (∀ files : Nat → String, load_poly files = load_poly_lvl1 files)
    ∧ ∀ (files : Nat → String) (l : List Json),
        load_poly files = Except.ok l →
        l.length = 64 ∧
        ∀ k : Nat, k < 64 →
          ∃ v, l.get? k = some v ∧ load_one (files (k + 1)) = Except.ok v := by
  constructor
  · intro files
    exact loadLoop_eq_lvl1 files _
  · intro files l h
    obtain ⟨hlen, helem⟩ := loadLoop_ok_spec files _ l h
    constructor
    · simpa using hlen
    · intro k hk
      apply helem
      simp [List.get?_eq_getElem?, List.getElem?_map, List.getElem?_range, hk]

/-- Witness for C10 at sixty-four identical concrete files. -/
theorem level1_loaders_witness :
    load_poly lvlFiles = load_poly_lvl1 lvlFiles
    ∧ load_poly lvlFiles = Except.ok (List.replicate 64 Json.null)
    ∧ (List.replicate 64 Json.null).length = 64
    ∧ ∃ v, (List.replicate 64 Json.null).get? 0 = some v ∧
        load_one (lvlFiles 1) = Except.ok v := by
  refine ⟨level1_loaders_equivalent.1 lvlFiles, by rfl, ?_, ?_⟩
  · exact (level1_loaders_equivalent.2 lvlFiles _ (by rfl)).1
  · exact (level1_loaders_equivalent.2 lvlFiles _ (by rfl)).2 0 (by decide)

/-! ### C8: character-class and digit lemmas -/

theorem ne_of_toNat (c d : Char) (h : c.toNat ≠ d.toNat) : c ≠ d :=
  fun e => h (congrArg Char.toNat e)

theorem isWs_isDig_false (c : Char) (h : isWs c = true) : isDig c = false := by
  simp only [isWs, Bool.or_eq_true, decide_eq_true_eq] at h
  simp only [isDig, Bool.and_eq_true, decide_eq_true_eq, Bool.and_eq_false_iff,
    decide_eq_false_iff_not]
  omega

theorem isDig_toNat (c : Char) (h : isDig c = true) :
    48 ≤ c.toNat ∧ c.toNat ≤ 57 := by
  simpa [isDig] using h

theorem digitChar_spec : ∀ d, d < 10 →
    isDig (digitChar d) = true ∧ (digitChar d).toNat = 48 + d := by decide

theorem natDigits_ne_nil (n : Nat) : natDigits n ≠ [] := by
  rw [natDigits]
  split <;> simp

theorem natDigits_digits (n : Nat) : ∀ c ∈ natDigits n, isDig c = true := by
  induction n using Nat.strong_induction_on with
  | _ n ih =>
    rw [natDigits]
    split
    · intro c hc
      next h =>
        simp only [List.mem_singleton] at hc
        subst hc
        exact (digitChar_spec n h).1
    · intro c hc
      next h =>
        rcases List.mem_append.mp hc with h1 | h2
        · exact ih (n / 10) (Nat.div_lt_self (by omega) (by omega)) c h1
        · simp only [List.mem_singleton] at h2
          subst h2
          exact (digitChar_spec (n % 10) (by omega)).1

theorem natDigits_head_ne_zero : ∀ n, 1 ≤ n → ∀ t, natDigits n ≠ '0' :: t := by
  intro n
  induction n using Nat.strong_induction_on with
  | _ n ih =>
    intro h1 t he
    rw [natDigits] at he
    split at he
    · next h =>
      simp only [List.cons.injEq] at he
      have h2 := congrArg Char.toNat he.1
      have h3 := (digitChar_spec n h).2
      rw [h3] at h2
      have h4 : ('0' : Char).toNat = 48 := rfl
      omega
    · next h =>
      cases hh : natDigits (n / 10) with
      | nil => exact natDigits_ne_nil _ hh
      | cons c0 t0 =>
        rw [hh] at he
        simp only [List.cons_append, List.cons.injEq] at he
        have hz : natDigits (n / 10) = '0' :: t0 := by
          rw [hh, he.1]
        exact ih (n / 10) (Nat.div_lt_self (by omega) (by omega))
          (by omega) t0 hz

theorem munchDigits_no_digit (rest : List Char) (acc : Nat)
    (h : noDigitHead rest) : munchDigits rest acc = (acc, rest) := by
  cases rest with
  | nil => rfl
  | cons c t =>
    simp only [noDigitHead] at h
    simp [munchDigits, h]

theorem munchDigits_prepend (n : Nat) : ∀ (acc : Nat) (rest : List Char),
    munchDigits (natDigits n ++ rest) acc =
      munchDigits rest (acc * 10 ^ (natDigits n).length + n) := by
  induction n using Nat.strong_induction_on with
  | _ n ih =>
    intro acc rest
    rw [natDigits]
    split
    · next h =>
      have hd := digitChar_spec n h
      simp only [List.singleton_append, munchDigits, hd.1, if_true, hd.2,
        List.length_singleton]
      have he : 48 + n - 48 = n := by omega
      have hp : acc * 10 ^ 1 + n = acc * 10 + n := by ring_nf
      rw [he, hp]
      rfl
    · next h =>
      have hlt : n / 10 < n := Nat.div_lt_self (by omega) (by omega)
      rw [List.append_assoc, ih (n / 10) hlt acc]
      have hd := digitChar_spec (n % 10) (by omega)
      simp only [List.singleton_append, munchDigits, hd.1, if_true, hd.2]
      have he : 48 + n % 10 - 48 = n % 10 := by omega
      rw [he, List.length_append, List.length_singleton]
      congr 1
      have hn : n / 10 * 10 + n % 10 = n := by omega
      calc (acc * 10 ^ (natDigits (n / 10)).length + n / 10) * 10 + n % 10
          = acc * (10 ^ (natDigits (n / 10)).length * 10) +
              (n / 10 * 10 + n % 10) := by ring
        _ = acc * 10 ^ ((natDigits (n / 10)).length + 1) + n := by
            rw [hn, pow_succ]

/-! ### C8: string-literal roundtrip -/

theorem hexDigitChar_spec : ∀ v, v < 16 → hexVal (hexDigitChar v) = some v := by
  decide

theorem parseStrBody_print (cs : List Char) : ∀ rest,
    parseStrBody (cs.flatMap escChar ++ '"' :: rest) = Except.ok (cs, rest) := by
  induction cs with
  | nil => intro rest; rfl
  | cons c t ih =>
    intro rest
    have hsplit : (c :: t).flatMap escChar ++ '"' :: rest =
        escChar c ++ (t.flatMap escChar ++ '"' :: rest) := by
      simp [List.flatMap_cons, List.append_assoc]
    rw [hsplit]
    by_cases h1 : c = '"'
    · subst h1
      have hesc : escChar '"' = ['\\', '"'] := by rfl
      rw [hesc]
      simp only [List.cons_append, List.nil_append]
      unfold parseStrBody
      simp [ih rest]
      try rfl
    · by_cases h2 : c = '\\'
      · subst h2
        have hesc : escChar '\\' = ['\\', '\\'] := by rfl
        rw [hesc]
        simp only [List.cons_append, List.nil_append]
        unfold parseStrBody
        simp [ih rest]
        try rfl
      · by_cases h3 : c = '\n'
        · subst h3
          have hesc : escChar '\n' = ['\\', 'n'] := by rfl
          rw [hesc]
          simp only [List.cons_append, List.nil_append]
          unfold parseStrBody
          simp [ih rest]
          try rfl
        · by_cases h4 : c = '\t'
          · subst h4
            have hesc : escChar '\t' = ['\\', 't'] := by rfl
            rw [hesc]
            simp only [List.cons_append, List.nil_append]
            unfold parseStrBody
            simp [ih rest]
            try rfl
          · by_cases h5 : c = '\r'
            · subst h5
              have hesc : escChar '\r' = ['\\', 'r'] := by rfl
              rw [hesc]
              simp only [List.cons_append, List.nil_append]
              unfold parseStrBody
              simp [ih rest]
              try rfl
            · by_cases h6 : c.toNat = 8
              · have hc : c = Char.ofNat 8 := by
                  rw [← h6, Char.ofNat_toNat]
                subst hc
                have hesc : escChar (Char.ofNat 8) = ['\\', 'b'] := by rfl
                rw [hesc]
                simp only [List.cons_append, List.nil_append]
                unfold parseStrBody
                simp [ih rest]
                try rfl
              · by_cases h7 : c.toNat = 12
                · have hc : c = Char.ofNat 12 := by
                    rw [← h7, Char.ofNat_toNat]
                  subst hc
                  have hesc : escChar (Char.ofNat 12) = ['\\', 'f'] := by rfl
                  rw [hesc]
                  simp only [List.cons_append, List.nil_append]
                  unfold parseStrBody
                  simp [ih rest]
                  try rfl
                · by_cases h8 : c.toNat < 32
                  · have hesc : escChar c =
                        ['\\', 'u', '0', '0', hexDigitChar (c.toNat / 16),
                          hexDigitChar (c.toNat % 16)] := by
                      simp [escChar, h1, h2, h3, h4, h5, h6, h7, h8]
                    rw [hesc]
                    have hv3 : hexVal (hexDigitChar (c.toNat / 16)) =
                        some (c.toNat / 16) := hexDigitChar_spec _ (by omega)
                    have hv4 : hexVal (hexDigitChar (c.toNat % 16)) =
                        some (c.toNat % 16) := hexDigitChar_spec _ (by omega)
                    have hv0 : hexVal '0' = some 0 := by decide
                    simp only [List.cons_append, List.nil_append]
                    unfold parseStrBody
                    simp [hv0, hv3, hv4]
                    have hn : c.toNat / 16 * 16 + c.toNat % 16 = c.toNat := by
                      omega
                    rw [hn]
                    have hsur : ¬ (55296 ≤ c.toNat ∧ c.toNat < 57344) := by
                      omega
                    rw [if_neg hsur]
                    simp [ih rest, Char.ofNat_toNat]
                    try rfl
                  · have hesc : escChar c = [c] := by
                      simp [escChar, h1, h2, h3, h4, h5, h6, h7, h8]
                    rw [hesc]
                    simp only [List.cons_append, List.nil_append]
                    have ih2 := ih rest
                    clear ih
                    unfold parseStrBody
                    split
                    all_goals try simp_all
                    all_goals (rw [if_neg (by omega)]; try rfl)

/-! ### C8: base64 roundtrip -/

theorem sextetVal_sextetChar : ∀ v, v < 64 → sextetVal (sextetChar v) = some v := by
  decide

theorem sextetChar_ne_pad : ∀ v, v < 64 → ¬ sextetChar v = '=' := by decide

theorem b64decLoop_sx (v : Nat) (hv : v < 64) (rest : List Char)
    (left pads : Nat) :
    b64decLoop (sextetChar v :: rest) 0 left pads = b64decLoop rest 1 v 0
    ∧ b64decLoop (sextetChar v :: rest) 1 left pads =
        (match b64decLoop rest 2 (v % 16) 0 with
          | Except.ok bs => Except.ok ((left * 4 + v / 16) :: bs)
          | Except.error e => Except.error e)
    ∧ b64decLoop (sextetChar v :: rest) 2 left pads =
        (match b64decLoop rest 3 (v % 4) 0 with
          | Except.ok bs => Except.ok ((left * 16 + v / 4) :: bs)
          | Except.error e => Except.error e)
    ∧ b64decLoop (sextetChar v :: rest) 3 left pads =
        (match b64decLoop rest 0 0 0 with
          | Except.ok bs => Except.ok ((left * 64 + v) :: bs)
          | Except.error e => Except.error e) := by
  have hne : ¬ sextetChar v = '=' := sextetChar_ne_pad v hv
  have hval := sextetVal_sextetChar v hv
  refine ⟨?_, ?_, ?_, ?_⟩
  all_goals (
    conv_lhs => unfold b64decLoop
    rw [if_neg hne, hval]
    simp)

theorem b64decLoop_pad (rest : List Char) (left : Nat) :
    b64decLoop ('=' :: rest) 2 left 0 = b64decLoop rest 2 left 1
    ∧ b64decLoop ('=' :: rest) 2 left 1 = Except.ok []
    ∧ ∀ pads, b64decLoop ('=' :: rest) 3 left pads = Except.ok [] := by
  refine ⟨rfl, rfl, ?_⟩
  intro pads
  conv_lhs => unfold b64decLoop
  rw [if_pos rfl, if_pos (by omega), if_pos (by omega)]

theorem b64decLoop_encode : ∀ (bs : List Nat), (∀ x ∈ bs, x < 256) →
    b64decLoop (b64encode bs) 0 0 0 = Except.ok bs
  | [], _ => rfl
  | [a], h => by
    have ha : a < 256 := h a (by simp)
    simp only [b64encode]
    rw [(b64decLoop_sx (a / 4) (by omega) _ 0 0).1]
    rw [(b64decLoop_sx (a % 4 * 16) (by omega) _ (a / 4) 0).2.1]
    rw [(b64decLoop_pad ['='] (a % 4 * 16 % 16)).1]
    rw [(b64decLoop_pad [] (a % 4 * 16 % 16)).2.1]
    show Except.ok [a / 4 * 4 + a % 4 * 16 / 16] = Except.ok [a]
    have e1 : a / 4 * 4 + a % 4 * 16 / 16 = a := by omega
    rw [e1]
  | [a, b], h => by
    have ha : a < 256 := h a (by simp)
    have hb : b < 256 := h b (by simp)
    simp only [b64encode]
    rw [(b64decLoop_sx (a / 4) (by omega) _ 0 0).1]
    rw [(b64decLoop_sx (a % 4 * 16 + b / 16) (by omega) _ (a / 4) 0).2.1]
    rw [(b64decLoop_sx (b % 16 * 4) (by omega) _
      ((a % 4 * 16 + b / 16) % 16) 0).2.2.1]
    rw [(b64decLoop_pad [] (b % 16 * 4 % 4)).2.2 0]
    show Except.ok [a / 4 * 4 + (a % 4 * 16 + b / 16) / 16,
      (a % 4 * 16 + b / 16) % 16 * 16 + b % 16 * 4 / 4] = Except.ok [a, b]
    have e1 : a / 4 * 4 + (a % 4 * 16 + b / 16) / 16 = a := by omega
    have e2 : (a % 4 * 16 + b / 16) % 16 * 16 + b % 16 * 4 / 4 = b := by omega
    rw [e1, e2]
  | a :: b :: c :: rest, h => by
    have ha : a < 256 := h a (by simp)
    have hb : b < 256 := h b (by simp)
    have hc : c < 256 := h c (by simp)
    have ih := b64decLoop_encode rest (fun x hx => h x (by simp [hx]))
    simp only [b64encode]
    rw [(b64decLoop_sx (a / 4) (by omega) _ 0 0).1]
    rw [(b64decLoop_sx (a % 4 * 16 + b / 16) (by omega) _ (a / 4) 0).2.1]
    rw [(b64decLoop_sx (b % 16 * 4 + c / 64) (by omega) _
      ((a % 4 * 16 + b / 16) % 16) 0).2.2.1]
    rw [(b64decLoop_sx (c % 64) (by omega) _
      ((b % 16 * 4 + c / 64) % 4) 0).2.2.2]
    rw [ih]
    show Except.ok ((a / 4 * 4 + (a % 4 * 16 + b / 16) / 16) ::
      ((a % 4 * 16 + b / 16) % 16 * 16 + (b % 16 * 4 + c / 64) / 4) ::
      ((b % 16 * 4 + c / 64) % 4 * 64 + c % 64) :: rest) =
      Except.ok (a :: b :: c :: rest)
    have e1 : a / 4 * 4 + (a % 4 * 16 + b / 16) / 16 = a := by omega
    have e2 : (a % 4 * 16 + b / 16) % 16 * 16 + (b % 16 * 4 + c / 64) / 4 = b := by
      omega
    have e3 : (b % 16 * 4 + c / 64) % 4 * 64 + c % 64 = c := by omega
    rw [e1, e2, e3]

theorem b64decodeChars_encode (bs : List Nat) (h : ∀ x ∈ bs, x < 256) :
    b64decodeChars (b64encode bs) = Except.ok bs :=
  b64decLoop_encode bs h

/-! ### C8: UTF-8 roundtrip -/

theorem char_valid_bounds (c : Char) :
    c.toNat < 1114112 ∧ ¬ (55296 ≤ c.toNat ∧ c.toNat < 57344) := by
  have hv := c.valid
  simp only [UInt32.isValidChar, Nat.isValidChar] at hv
  have he : c.toNat = c.val.toNat := rfl
  rcases hv with h | ⟨h1, h2⟩ <;> constructor <;> omega

theorem utf8EncodeChar_bytes (c : Char) : ∀ x ∈ utf8EncodeChar c, x < 256 := by
  intro x hx
  have hb := (char_valid_bounds c).1
  unfold utf8EncodeChar at hx
  by_cases e1 : c.toNat < 128
  · rw [if_pos e1] at hx
    simp only [List.mem_singleton] at hx
    omega
  · rw [if_neg e1] at hx
    by_cases e2 : c.toNat < 2048
    · rw [if_pos e2] at hx
      simp only [List.mem_cons, List.not_mem_nil, or_false] at hx
      rcases hx with rfl | rfl <;> omega
    · rw [if_neg e2] at hx
      by_cases e3 : c.toNat < 65536
      · rw [if_pos e3] at hx
        simp only [List.mem_cons, List.not_mem_nil, or_false] at hx
        rcases hx with rfl | rfl | rfl <;> omega
      · rw [if_neg e3] at hx
        simp only [List.mem_cons, List.not_mem_nil, or_false] at hx
        rcases hx with rfl | rfl | rfl | rfl <;> omega

theorem utf8Encode_bytes (s : List Char) : ∀ x ∈ utf8Encode s, x < 256 := by
  intro x hx
  unfold utf8Encode at hx
  simp only [List.mem_flatMap] at hx
  obtain ⟨c, _, hc⟩ := hx
  exact utf8EncodeChar_bytes c x hc

theorem utf8Decode_encode : ∀ (s : List Char),
    utf8Decode (utf8Encode s) = Except.ok s
  | [] => rfl
  | c :: t => by
    have ih := utf8Decode_encode t
    have hbound := char_valid_bounds c
    have hsplit : utf8Encode (c :: t) = utf8EncodeChar c ++ utf8Encode t := by
      simp [utf8Encode]
    rw [hsplit]
    by_cases e1 : c.toNat < 128
    · have henc : utf8EncodeChar c = [c.toNat] := by
        unfold utf8EncodeChar
        rw [if_pos e1]
      rw [henc]
      simp only [List.cons_append, List.nil_append]
      unfold utf8Decode
      rw [if_pos e1, ih, Char.ofNat_toNat]
    · by_cases e2 : c.toNat < 2048
      · have henc : utf8EncodeChar c =
            [192 + c.toNat / 64, 128 + c.toNat % 64] := by
          unfold utf8EncodeChar
          rw [if_neg e1, if_pos e2]
        rw [henc]
        simp only [List.cons_append, List.nil_append]
        unfold utf8Decode
        rw [if_neg (by omega), if_neg (by omega), if_pos (by omega)]
        unfold utf8Dec2
        have hcb : contByte (128 + c.toNat % 64) = some (c.toNat % 64) := by
          unfold contByte
          rw [if_pos (by omega)]
          rw [show 128 + c.toNat % 64 - 128 = c.toNat % 64 from by omega]
        simp only [hcb]
        have hn : (192 + c.toNat / 64 - 192) * 64 + c.toNat % 64 = c.toNat := by
          omega
        rw [hn, if_neg (by omega), ih, Char.ofNat_toNat]
      · by_cases e3 : c.toNat < 65536
        · have henc : utf8EncodeChar c =
              [224 + c.toNat / 4096, 128 + c.toNat / 64 % 64,
                128 + c.toNat % 64] := by
            unfold utf8EncodeChar
            rw [if_neg e1, if_neg e2, if_pos e3]
          rw [henc]
          simp only [List.cons_append, List.nil_append]
          unfold utf8Decode
          rw [if_neg (by omega), if_neg (by omega), if_neg (by omega),
            if_pos (by omega)]
          unfold utf8Dec3
          have hcb2 : contByte (128 + c.toNat / 64 % 64) =
              some (c.toNat / 64 % 64) := by
            unfold contByte
            rw [if_pos (by omega)]
            rw [show 128 + c.toNat / 64 % 64 - 128 = c.toNat / 64 % 64 from by
              omega]
          have hcb3 : contByte (128 + c.toNat % 64) = some (c.toNat % 64) := by
            unfold contByte
            rw [if_pos (by omega)]
            rw [show 128 + c.toNat % 64 - 128 = c.toNat % 64 from by omega]
          simp only [hcb2, hcb3]
          have hn : (224 + c.toNat / 4096 - 224) * 4096 +
              c.toNat / 64 % 64 * 64 + c.toNat % 64 = c.toNat := by omega
          rw [hn, if_neg (by omega),
            if_neg (show ¬ (55296 ≤ c.toNat ∧ c.toNat < 57344) from hbound.2),
            ih, Char.ofNat_toNat]
        · have henc : utf8EncodeChar c =
              [240 + c.toNat / 262144, 128 + c.toNat / 4096 % 64,
                128 + c.toNat / 64 % 64, 128 + c.toNat % 64] := by
            unfold utf8EncodeChar
            rw [if_neg e1, if_neg e2, if_neg e3]
          rw [henc]
          simp only [List.cons_append, List.nil_append]
          unfold utf8Decode
          have hlt : c.toNat / 262144 ≤ 4 := by omega
          rw [if_neg (by omega), if_neg (by omega), if_neg (by omega),
            if_neg (by omega), if_pos (by omega)]
          unfold utf8Dec4
          have hcb2 : contByte (128 + c.toNat / 4096 % 64) =
              some (c.toNat / 4096 % 64) := by
            unfold contByte
            rw [if_pos (by omega)]
            rw [show 128 + c.toNat / 4096 % 64 - 128 = c.toNat / 4096 % 64 from
              by omega]
          have hcb3 : contByte (128 + c.toNat / 64 % 64) =
              some (c.toNat / 64 % 64) := by
            unfold contByte
            rw [if_pos (by omega)]
            rw [show 128 + c.toNat / 64 % 64 - 128 = c.toNat / 64 % 64 from by
              omega]
          have hcb4 : contByte (128 + c.toNat % 64) = some (c.toNat % 64) := by
            unfold contByte
            rw [if_pos (by omega)]
            rw [show 128 + c.toNat % 64 - 128 = c.toNat % 64 from by omega]
          simp only [hcb2, hcb3, hcb4]
          have hn : (240 + c.toNat / 262144 - 240) * 262144 +
              c.toNat / 4096 % 64 * 4096 + c.toNat / 64 % 64 * 64 +
              c.toNat % 64 = c.toNat := by omega
          rw [hn, if_neg (by omega), if_neg (by omega), ih, Char.ofNat_toNat]

/-! ### C8: parser dispatch lemmas -/

theorem skipWs_cons_nws (c : Char) (s : List Char) (h : isWs c = false) :
    skipWs (c :: s) = c :: s := by
  simp [skipWs, h]

theorem skipWs_append_ws (w : List Char) (s : List Char)
    (hw : ∀ c ∈ w, isWs c = true) : skipWs (w ++ s) = skipWs s := by
  induction w with
  | nil => rfl
  | cons c t ih =>
    have hc : isWs c = true := hw c (by simp)
    simp only [List.cons_append, skipWs, hc, if_true]
    exact ih (fun x hx => hw x (by simp [hx]))

theorem isDig_facts (c : Char) (h : isDig c = true) :
    isWs c = false ∧ c ≠ ']' ∧ c ≠ rbrace ∧ c ≠ ',' ∧ c ≠ lbrace ∧
      c ≠ '[' ∧ c ≠ '"' ∧ c ≠ 't' ∧ c ≠ 'f' ∧ c ≠ 'n' ∧ c ≠ '-' ∧
      c ≠ ':' := by
  have hb := isDig_toNat c h
  refine ⟨?_, ?_, ?_, ?_, ?_, ?_, ?_, ?_, ?_, ?_, ?_, ?_⟩
  · simp only [isWs, Bool.or_eq_false_iff, decide_eq_false_iff_not]
    omega
  all_goals exact fun e => absurd (e ▸ h) (by decide)

theorem jStart_facts (c : Char) (h : jStart c = true) :
    isWs c = false ∧ c ≠ ']' ∧ c ≠ rbrace ∧ c ≠ ',' ∧ c ≠ ':' := by
  simp only [jStart, Bool.or_eq_true, decide_eq_true_eq] at h
  rcases h with ((((((he | he) | he) | he) | he) | he) | he) | hd
  all_goals try (subst he; refine ⟨by decide, by decide, by decide, by decide,
    by decide⟩)
  · have := isDig_facts c hd
    exact ⟨this.1, this.2.1, this.2.2.1, this.2.2.2.1, this.2.2.2.2.2.2.2.2.2.2.2⟩

theorem printJ_starts (st : PrintStyle) (d : Nat) (j : Json) :
    ∃ c r, printJ st d j = c :: r ∧ jStart c = true := by
  cases j with
  | null => exact ⟨'n', _, rfl, by decide⟩
  | bool b =>
    cases b with
    | false => exact ⟨'f', _, rfl, by decide⟩
    | true => exact ⟨'t', _, rfl, by decide⟩
  | num n =>
    by_cases hn : n < 0
    · refine ⟨'-', natDigits n.natAbs, ?_, by decide⟩
      simp [printJ, intChars, hn]
    · obtain ⟨c, r, hcr⟩ : ∃ c r, natDigits n.toNat = c :: r := by
        cases he : natDigits n.toNat with
        | nil => exact absurd he (natDigits_ne_nil _)
        | cons c r => exact ⟨c, r, rfl⟩
      have hc : isDig c = true := natDigits_digits n.toNat c (by simp [hcr])
      refine ⟨c, r, ?_, by simp [jStart, hc]⟩
      simp [printJ, intChars, hn, hcr]
  | str s => exact ⟨'"', _, rfl, by decide⟩
  | arr a =>
    cases a with
    | nil => exact ⟨'[', _, rfl, by decide⟩
    | cons h t => exact ⟨'[', _, rfl, by decide⟩
  | obj o =>
    cases o with
    | nil => exact ⟨lbrace, _, rfl, by decide⟩
    | cons k v t => exact ⟨lbrace, _, rfl, by decide⟩

theorem noDigitHead_concat (w l : List Char) (hw : ∀ c ∈ w, isWs c = true)
    (h : noDigitHead l) : noDigitHead (w ++ l) := by
  cases w with
  | nil => simpa using h
  | cons c t =>
    simp only [List.cons_append, noDigitHead]
    exact isWs_isDig_false c (hw c (by simp))

theorem sizeJ_pos (j : Json) : 1 ≤ sizeJ j := by
  cases j <;> simp [sizeJ]

theorem sizeA_pos (a : JArr) : 1 ≤ sizeA a := by
  cases a <;> (simp [sizeA]; try omega)

theorem sizeO_pos (o : JObj) : 1 ≤ sizeO o := by
  cases o <;> (simp [sizeO]; try omega)

/-! ### C8: parser fuel bound -/

theorem intChars_length_pos (n : Int) : 1 ≤ (intChars n).length := by
  unfold intChars
  split
  · simp
  · have := natDigits_ne_nil n.toNat
    exact List.length_pos.mpr this

mutual

theorem sizeJ_le_print : ∀ (st : PrintStyle) (d : Nat) (j : Json),
    sizeJ j ≤ 2 * (printJ st d j).length
  | st, d, Json.null => by simp [sizeJ, printJ]
  | st, d, Json.bool true => by simp [sizeJ, printJ]
  | st, d, Json.bool false => by simp [sizeJ, printJ]
  | st, d, Json.num n => by
    have h1 := intChars_length_pos n
    simp only [sizeJ, printJ]
    omega
  | st, d, Json.str s => by
    simp only [sizeJ, printJ, printStr, List.length_cons]
    show 1 ≤ 2 * ((s.data.flatMap escChar ++ ['"']).length + 1)
    omega
  | st, d, Json.arr JArr.nil => by simp [sizeJ, sizeA, printJ]
  | st, d, Json.arr (JArr.cons h t) => by
    have hh := sizeJ_le_print st (d + 2) h
    have ht := sizeA_le_print st d t
    simp only [sizeJ, sizeA, printJ, List.length_cons, List.length_append,
      List.length_singleton]
    omega
  | st, d, Json.obj JObj.nil => by simp [sizeJ, sizeO, printJ]
  | st, d, Json.obj (JObj.cons k v t) => by
    have hv := sizeJ_le_print st (d + 2) v
    have ht := sizeO_le_print st d t
    simp only [sizeJ, sizeO, printJ, List.length_cons, List.length_append,
      List.length_singleton]
    omega

theorem sizeA_le_print : ∀ (st : PrintStyle) (d : Nat) (a : JArr),
    sizeA a ≤ 2 * (printArrT st d a).length + 1
  | st, d, JArr.nil => by simp [sizeA, printArrT]
  | st, d, JArr.cons h t => by
    have hh := sizeJ_le_print st (d + 2) h
    have ht := sizeA_le_print st d t
    simp only [sizeA, printArrT, List.length_cons, List.length_append]
    omega

theorem sizeO_le_print : ∀ (st : PrintStyle) (d : Nat) (o : JObj),
    sizeO o ≤ 2 * (printObjT st d o).length + 1
  | st, d, JObj.nil => by simp [sizeO, printObjT]
  | st, d, JObj.cons k v t => by
    have hv := sizeJ_le_print st (d + 2) v
    have ht := sizeO_le_print st d t
    simp only [sizeO, printObjT, List.length_cons, List.length_append]
    omega

end

/-! ### C8: the parse-print roundtrip -/

theorem printJ_arr (st : PrintStyle) (d : Nat) (a : JArr) :
    printJ st d (Json.arr a) = '[' :: arrBodyChars st d a := by
  cases a <;> simp [printJ, arrBodyChars]

theorem printJ_obj (st : PrintStyle) (d : Nat) (o : JObj) :
    printJ st d (Json.obj o) = lbrace :: objBodyChars st d o := by
  cases o <;> simp [printJ, objBodyChars]

theorem noDigitHead_printArrT (st : PrintStyle) (d : Nat) (t : JArr)
    (rest' : List Char) (hbc : ∀ c ∈ st.beforeClose d, isWs c = true) :
    noDigitHead (printArrT st d t ++ (st.beforeClose d ++ ']' :: rest')) := by
  cases t with
  | nil =>
    simp only [printArrT, List.nil_append]
    exact noDigitHead_concat _ _ hbc (show isDig ']' = false by decide)
  | cons h t2 =>
    simp only [printArrT, List.cons_append]
    show isDig ',' = false
    decide

theorem noDigitHead_printObjT (st : PrintStyle) (d : Nat) (t : JObj)
    (rest' : List Char) (hbc : ∀ c ∈ st.beforeClose d, isWs c = true) :
    noDigitHead (printObjT st d t ++ (st.beforeClose d ++ rbrace :: rest')) := by
  cases t with
  | nil =>
    simp only [printObjT, List.nil_append]
    exact noDigitHead_concat _ _ hbc (show isDig rbrace = false by decide)
  | cons k v t2 =>
    simp only [printObjT, List.cons_append]
    show isDig ',' = false
    decide

theorem exceptBind_ok {α β : Type} (x : α) (f : α → Except String β) :
    (Except.ok x >>= f : Except String β) = f x := rfl

theorem parse_print_master (st : PrintStyle)
    (hws : ∀ d, (∀ c ∈ st.afterOpen d, isWs c = true) ∧
      (∀ c ∈ st.afterComma d, isWs c = true) ∧
      (∀ c ∈ st.beforeClose d, isWs c = true)) :
    ∀ fuel : Nat,
      (∀ (j : Json) (d : Nat) (w rest : List Char), sizeJ j ≤ fuel →
        (∀ c ∈ w, isWs c = true) → noDigitHead rest →
        parseJ fuel (w ++ printJ st d j ++ rest) = Except.ok (j, rest))
      ∧ (∀ (a : JArr) (d : Nat) (rest : List Char), sizeA a ≤ fuel →
          parseArrStart fuel (arrBodyChars st d a ++ rest) =
            Except.ok (Json.arr a, rest))
      ∧ (∀ (a : JArr) (d : Nat) (rest : List Char), sizeA a ≤ fuel →
          parseArrTail fuel
              (printArrT st d a ++ (st.beforeClose d ++ ']' :: rest)) =
            Except.ok (a, rest))
      ∧ (∀ (o : JObj) (d : Nat) (rest : List Char), sizeO o ≤ fuel →
          parseObjStart fuel (objBodyChars st d o ++ rest) =
            Except.ok (Json.obj o, rest))
      ∧ (∀ (o : JObj) (d : Nat) (rest : List Char), sizeO o ≤ fuel →
          parseObjTail fuel
              (printObjT st d o ++ (st.beforeClose d ++ rbrace :: rest)) =
            Except.ok (o, rest)) := by
  intro fuel
  induction fuel with
  | zero =>
    refine ⟨?_, ?_, ?_, ?_, ?_⟩
    · intro j d w rest hsz _ _
      exact absurd hsz (by have := sizeJ_pos j; omega)
    · intro a d rest hsz
      exact absurd hsz (by have := sizeA_pos a; omega)
    · intro a d rest hsz
      exact absurd hsz (by have := sizeA_pos a; omega)
    · intro o d rest hsz
      exact absurd hsz (by have := sizeO_pos o; omega)
    · intro o d rest hsz
      exact absurd hsz (by have := sizeO_pos o; omega)
  | succ f ih =>
    obtain ⟨P, S, Q, T, R⟩ := ih
    refine ⟨?_, ?_, ?_, ?_, ?_⟩
    · intro j d w rest hsz hw hrest
      cases j with
      | null =>
        rw [show printJ st d Json.null = ['n', 'u', 'l', 'l'] from by
          simp [printJ]]
        simp only [List.append_assoc, List.cons_append, List.nil_append]
        unfold parseJ
        rw [skipWs_append_ws w _ hw, skipWs_cons_nws _ _ (by decide)]
        simp [lbrace, rbrace]
      | bool b =>
        cases b with
        | true =>
          rw [show printJ st d (Json.bool true) = ['t', 'r', 'u', 'e'] from by
            simp [printJ]]
          simp only [List.append_assoc, List.cons_append, List.nil_append]
          unfold parseJ
          rw [skipWs_append_ws w _ hw, skipWs_cons_nws _ _ (by decide)]
          simp [lbrace, rbrace]
        | false =>
          rw [show printJ st d (Json.bool false) = ['f', 'a', 'l', 's', 'e'] from
            by simp [printJ]]
          simp only [List.append_assoc, List.cons_append, List.nil_append]
          unfold parseJ
          rw [skipWs_append_ws w _ hw, skipWs_cons_nws _ _ (by decide)]
          simp [lbrace, rbrace]
      | num n =>
        by_cases hn : n < 0
        · obtain ⟨c2, r2, hcr⟩ : ∃ c2 r2, natDigits n.natAbs = c2 :: r2 := by
            cases he : natDigits n.natAbs with
            | nil => exact absurd he (natDigits_ne_nil _)
            | cons c2 r2 => exact ⟨c2, r2, rfl⟩
          have hc2 : isDig c2 = true :=
            natDigits_digits _ c2 (hcr.symm ▸ List.mem_cons_self c2 r2)
          have hz : c2 ≠ '0' := fun he0 =>
            natDigits_head_ne_zero n.natAbs (by omega) r2 (he0 ▸ hcr)
          rw [show printJ st d (Json.num n) = '-' :: natDigits n.natAbs from by
            simp [printJ, intChars, hn]]
          rw [hcr]
          simp only [List.append_assoc, List.cons_append]
          unfold parseJ
          rw [skipWs_append_ws w _ hw, skipWs_cons_nws _ _ (by decide)]
          have hm : munchDigits (c2 :: (r2 ++ rest)) 0 = (n.natAbs, rest) := by
            have he : c2 :: (r2 ++ rest) = natDigits n.natAbs ++ rest := by
              rw [hcr]
              simp
            rw [he, munchDigits_prepend, munchDigits_no_digit _ _ hrest]
            simp
          simp [lbrace, rbrace, hc2, hm, hz]
          rw [abs_of_neg hn]
          exact neg_neg n
        · obtain ⟨c2, r2, hcr⟩ : ∃ c2 r2, natDigits n.toNat = c2 :: r2 := by
            cases he : natDigits n.toNat with
            | nil => exact absurd he (natDigits_ne_nil _)
            | cons c2 r2 => exact ⟨c2, r2, rfl⟩
          have hc2 : isDig c2 = true :=
            natDigits_digits _ c2 (hcr.symm ▸ List.mem_cons_self c2 r2)
          have hfacts := isDig_facts c2 hc2
          rw [show printJ st d (Json.num n) = natDigits n.toNat from by
            simp [printJ, intChars, hn]]
          rw [hcr]
          simp only [List.append_assoc, List.cons_append]
          unfold parseJ
          rw [skipWs_append_ws w _ hw, skipWs_cons_nws _ _ hfacts.1]
          have hm : munchDigits (c2 :: (r2 ++ rest)) 0 = (n.toNat, rest) := by
            have he : c2 :: (r2 ++ rest) = natDigits n.toNat ++ rest := by
              rw [hcr]
              simp
            rw [he, munchDigits_prepend, munchDigits_no_digit _ _ hrest]
            simp
          have hpos : ((n.toNat : Nat) : Int) = n := Int.toNat_of_nonneg (by
            omega)
          have hzz : (decide (c2 = '0') && headDig (r2 ++ rest)) = false := by
            by_cases h0 : n.toNat = 0
            · have hd0 : natDigits n.toNat = ['0'] := by
                rw [h0, natDigits]
                decide
              rw [hd0] at hcr
              injection hcr with hA hB
              rw [← hA, ← hB]
              have hh : headDig rest = false := by
                cases rest with
                | nil => rfl
                | cons cx tx =>
                  simp only [noDigitHead] at hrest
                  simp [headDig, hrest]
              simp [hh]
            · have hz : c2 ≠ '0' := fun he0 =>
                natDigits_head_ne_zero n.toNat (by omega) r2 (he0 ▸ hcr)
              simp [hz]
          simp [hc2, hzz, hfacts.2.2.2.2.1, hfacts.2.2.2.2.2.1,
            hfacts.2.2.2.2.2.2.1, hfacts.2.2.2.2.2.2.2.1,
            hfacts.2.2.2.2.2.2.2.2.1, hfacts.2.2.2.2.2.2.2.2.2.1,
            hfacts.2.2.2.2.2.2.2.2.2.2.1, hm, hpos]
      | str s =>
        rw [show printJ st d (Json.str s) =
            '"' :: (s.data.flatMap escChar ++ ['"']) from by
          simp [printJ, printStr]]
        simp only [List.append_assoc, List.cons_append, List.singleton_append, List.nil_append]
        unfold parseJ
        rw [skipWs_append_ws w _ hw, skipWs_cons_nws _ _ (by decide)]
        have hsb := parseStrBody_print s.data rest
        simp [lbrace, rbrace, hsb]
        try rfl
      | arr a =>
        have hsa : sizeA a ≤ f := by
          simp only [sizeJ] at hsz
          omega
        rw [printJ_arr]
        simp only [List.append_assoc, List.cons_append]
        unfold parseJ
        rw [skipWs_append_ws w _ hw, skipWs_cons_nws _ _ (by decide)]
        have hS := S a d rest hsa
        simp [lbrace, rbrace, hS]
      | obj o =>
        have hso : sizeO o ≤ f := by
          simp only [sizeJ] at hsz
          omega
        rw [printJ_obj]
        simp only [List.append_assoc, List.cons_append]
        unfold parseJ
        rw [skipWs_append_ws w _ hw, skipWs_cons_nws _ _ (by decide)]
        have hT := T o d rest hso
        simp [lbrace, rbrace, hT]
    · intro a d rest hsz
      cases a with
      | nil =>
        rw [show arrBodyChars st d JArr.nil ++ rest = ']' :: rest from by
          simp [arrBodyChars]]
        unfold parseArrStart
        rw [skipWs_cons_nws _ _ (by decide)]
        simp
      | cons h t =>
        have hsz2 : 1 + sizeJ h + sizeA t ≤ f + 1 := by
          simpa [sizeA] using hsz
        obtain ⟨ch, r0, hpr, hst⟩ := printJ_starts st (d + 2) h
        have hfacts := jStart_facts ch hst
        rw [show arrBodyChars st d (JArr.cons h t) ++ rest =
            st.afterOpen d ++ (printJ st (d + 2) h ++
              (printArrT st d t ++ (st.beforeClose d ++ (']' :: rest)))) from by
          simp [arrBodyChars, List.append_assoc]]
        unfold parseArrStart
        rw [skipWs_append_ws _ _ (hws d).1]
        rw [hpr]
        simp only [List.cons_append]
        rw [skipWs_cons_nws _ _ hfacts.1]
        have hP := P h (d + 2) []
          (printArrT st d t ++ (st.beforeClose d ++ ']' :: rest))
          (by have := sizeA_pos t; omega) (by simp)
          (noDigitHead_printArrT st d t rest (hws d).2.2)
        simp only [List.nil_append] at hP
        rw [hpr] at hP
        simp only [List.cons_append] at hP
        have hQ := Q t d rest (by have := sizeJ_pos h; omega)
        simp [hfacts.2.1, hP, hQ, exceptBind_ok]
        try rfl
    · intro a d rest hsz
      cases a with
      | nil =>
        rw [show printArrT st d JArr.nil ++ (st.beforeClose d ++ ']' :: rest) =
            st.beforeClose d ++ (']' :: rest) from by simp [printArrT]]
        unfold parseArrTail
        rw [skipWs_append_ws _ _ (hws d).2.2, skipWs_cons_nws _ _ (by decide)]
        simp
      | cons h t =>
        have hsz2 : 1 + sizeJ h + sizeA t ≤ f + 1 := by
          simpa [sizeA] using hsz
        rw [show printArrT st d (JArr.cons h t) ++
            (st.beforeClose d ++ ']' :: rest) =
            ',' :: (st.afterComma d ++ (printJ st (d + 2) h ++
              (printArrT st d t ++ (st.beforeClose d ++ (']' :: rest))))) from by
          simp [printArrT, List.append_assoc]]
        unfold parseArrTail
        rw [skipWs_cons_nws _ _ (by decide)]
        have hP := P h (d + 2) (st.afterComma d)
          (printArrT st d t ++ (st.beforeClose d ++ ']' :: rest))
          (by have := sizeA_pos t; omega) (hws d).2.1
          (noDigitHead_printArrT st d t rest (hws d).2.2)
        have hQ := Q t d rest (by have := sizeJ_pos h; omega)
        simp only [List.append_assoc] at hP
        simp [hP, hQ, exceptBind_ok]
        try rfl
    · intro o d rest hsz
      cases o with
      | nil =>
        rw [show objBodyChars st d JObj.nil ++ rest = rbrace :: rest from by
          simp [objBodyChars]]
        unfold parseObjStart
        rw [skipWs_cons_nws _ _ (by decide)]
        simp
      | cons k v t =>
        have hsz2 : 1 + sizeJ v + sizeO t ≤ f + 1 := by
          simpa [sizeO] using hsz
        rw [show objBodyChars st d (JObj.cons k v t) ++ rest =
            st.afterOpen d ++ ('"' :: (k.data.flatMap escChar ++
              ('"' :: (':' :: (' ' :: (printJ st (d + 2) v ++
                (printObjT st d t ++
                  (st.beforeClose d ++ (rbrace :: rest))))))))) from by
          simp [objBodyChars, printStr, List.append_assoc]]
        unfold parseObjStart
        rw [skipWs_append_ws _ _ (hws d).1, skipWs_cons_nws _ _ (by decide)]
        have hsb := parseStrBody_print k.data
          (':' :: (' ' :: (printJ st (d + 2) v ++ (printObjT st d t ++
            (st.beforeClose d ++ (rbrace :: rest))))))
        have hP := P v (d + 2) [' ']
          (printObjT st d t ++ (st.beforeClose d ++ rbrace :: rest))
          (by have := sizeO_pos t; omega)
          (by intro c hc; simp at hc; subst hc; decide)
          (noDigitHead_printObjT st d t rest (hws d).2.2)
        simp only [List.cons_append, List.nil_append] at hP
        have hR := R t d rest (by have := sizeJ_pos v; omega)
        have hskcolon : skipWs (':' :: (' ' :: (printJ st (d + 2) v ++
            (printObjT st d t ++ (st.beforeClose d ++ (rbrace :: rest)))))) =
            ':' :: (' ' :: (printJ st (d + 2) v ++ (printObjT st d t ++
              (st.beforeClose d ++ (rbrace :: rest))))) :=
          skipWs_cons_nws _ _ (by decide)
        have hqr : ('"' : Char) ≠ rbrace := by decide
        simp [hqr, hsb, hP, hR, hskcolon, exceptBind_ok]
        try rfl
    · intro o d rest hsz
      cases o with
      | nil =>
        rw [show printObjT st d JObj.nil ++
            (st.beforeClose d ++ rbrace :: rest) =
            st.beforeClose d ++ (rbrace :: rest) from by simp [printObjT]]
        unfold parseObjTail
        rw [skipWs_append_ws _ _ (hws d).2.2, skipWs_cons_nws _ _ (by decide)]
        simp [lbrace, rbrace]
      | cons k v t =>
        have hsz2 : 1 + sizeJ v + sizeO t ≤ f + 1 := by
          simpa [sizeO] using hsz
        rw [show printObjT st d (JObj.cons k v t) ++
            (st.beforeClose d ++ rbrace :: rest) =
            ',' :: (st.afterComma d ++ ('"' :: (k.data.flatMap escChar ++
              ('"' :: (':' :: (' ' :: (printJ st (d + 2) v ++
                (printObjT st d t ++
                  (st.beforeClose d ++ (rbrace :: rest)))))))))) from by
          simp [printObjT, printStr, List.append_assoc]]
        unfold parseObjTail
        rw [skipWs_cons_nws _ _ (by decide)]
        have hsb := parseStrBody_print k.data
          (':' :: (' ' :: (printJ st (d + 2) v ++ (printObjT st d t ++
            (st.beforeClose d ++ (rbrace :: rest))))))
        have hP := P v (d + 2) [' ']
          (printObjT st d t ++ (st.beforeClose d ++ rbrace :: rest))
          (by have := sizeO_pos t; omega)
          (by intro c hc; simp at hc; subst hc; decide)
          (noDigitHead_printObjT st d t rest (hws d).2.2)
        simp only [List.cons_append, List.nil_append] at hP
        have hR := R t d rest (by have := sizeJ_pos v; omega)
        have hskcolon : skipWs (':' :: (' ' :: (printJ st (d + 2) v ++
            (printObjT st d t ++ (st.beforeClose d ++ (rbrace :: rest)))))) =
            ':' :: (' ' :: (printJ st (d + 2) v ++ (printObjT st d t ++
              (st.beforeClose d ++ (rbrace :: rest))))) :=
          skipWs_cons_nws _ _ (by decide)
        have hskipac := skipWs_append_ws (st.afterComma d)
          ('"' :: (k.data.flatMap escChar ++
            ('"' :: (':' :: (' ' :: (printJ st (d + 2) v ++
              (printObjT st d t ++ (st.beforeClose d ++ (rbrace :: rest)))))))))
          (hws d).2.1
        have hqr : ('"' : Char) ≠ rbrace := by decide
        have hcomr : (',' : Char) ≠ rbrace := by decide
        have hskq : skipWs ('"' :: (k.data.flatMap escChar ++
            ('"' :: (':' :: (' ' :: (printJ st (d + 2) v ++ (printObjT st d t ++
              (st.beforeClose d ++ (rbrace :: rest))))))))) =
            '"' :: (k.data.flatMap escChar ++
              ('"' :: (':' :: (' ' :: (printJ st (d + 2) v ++
                (printObjT st d t ++ (st.beforeClose d ++ (rbrace :: rest)))))))) :=
          skipWs_cons_nws _ _ (by decide)
        simp [hqr, hcomr, hskipac, hskq, hsb, hP, hR, hskcolon, exceptBind_ok]
        try rfl

theorem compactStyle_ws (d : Nat) :
    (∀ c ∈ compactStyle.afterOpen d, isWs c = true) ∧
    (∀ c ∈ compactStyle.afterComma d, isWs c = true) ∧
    (∀ c ∈ compactStyle.beforeClose d, isWs c = true) := by
  refine ⟨?_, ?_, ?_⟩
  · intro c hc
    simp [compactStyle] at hc
  · intro c hc
    simp [compactStyle] at hc
    rw [hc]
    decide
  · intro c hc
    simp [compactStyle] at hc

theorem indentStyle_ws (d : Nat) :
    (∀ c ∈ indentStyle.afterOpen d, isWs c = true) ∧
    (∀ c ∈ indentStyle.afterComma d, isWs c = true) ∧
    (∀ c ∈ indentStyle.beforeClose d, isWs c = true) := by
  refine ⟨?_, ?_, ?_⟩
  all_goals (
    intro c hc
    simp only [indentStyle, List.mem_cons, List.mem_replicate] at hc
    rcases hc with h | h
    · rw [h]
      decide
    · rw [h.2]
      decide)

/-- Parsing recovers any value printed in a layout whose separators are all
whitespace. -/
theorem jsonLoads_print (st : PrintStyle)
    (hws : ∀ d, (∀ c ∈ st.afterOpen d, isWs c = true) ∧
      (∀ c ∈ st.afterComma d, isWs c = true) ∧
      (∀ c ∈ st.beforeClose d, isWs c = true)) (j : Json) :
    jsonLoads (String.mk (printJ st 0 j)) = Except.ok j := by
  have hp := (parse_print_master st hws (2 * (printJ st 0 j).length + 2)).1
    j 0 [] []
    (by have := sizeJ_le_print st 0 j; omega)
    (by intro c hc; simp at hc)
    trivial
  simp only [List.nil_append, List.append_nil] at hp
  unfold jsonLoads
  rw [show (String.mk (printJ st 0 j)).data = printJ st 0 j from rfl]
  rw [hp]
  rfl

/-- C8: serialization round-trips — parsing the text the Durable Writer writes
for a record (`json.dumps(..., indent=2)`) yields the original record, and
`decode_b64_json` inverts the transport encoding (base64 of the UTF-8 bytes of
a compact JSON serialization). -/
theorem serialization_roundtrips (j : Json) :
    jsonLoads (dumpsIndent2 j) = Except.ok j ∧
    decode_b64_json (encodeTransport j) = Except.ok j := by
  constructor
  · unfold dumpsIndent2
    exact jsonLoads_print indentStyle indentStyle_ws j
  · unfold decode_b64_json encodeTransport
    rw [show (String.mk (b64encode (utf8Encode (dumps j).data))).data =
        b64encode (utf8Encode (dumps j).data) from rfl]
    rw [b64decodeChars_encode _ (utf8Encode_bytes _)]
    rw [exceptBind_ok]
    rw [utf8Decode_encode]
    rw [exceptBind_ok]
    rw [show String.mk (dumps j).data = dumps j from rfl]
    unfold dumps
    exact jsonLoads_print compactStyle compactStyle_ws j

end PolyInfo
